import Mathlib

set_option maxRecDepth 8000

/-
  A verification development for the reconciliation engine of canvassync.py.

  The relevant parts of the program are embedded shallowly:
  * file contents are strings of bytes (`Content`),
  * a directory is a listing of entries (`FSEntry`, order = os.listdir order),
  * the local tree used by `_parse_file` is an association list from directory
    path to its listing,
  * timestamps are integers (`Int`): `modified_at` is the parsed UTC timestamp
    and `os.path.getmtime` values live on the same axis,
  * the HTTP session is a function from URL to an optional body
    (`none` = non-200 status),
  * the pruning pass `onto_local` gets its own flat model in terms of
    component-list paths, since it works on whole trees.
-/

namespace CanvasSync

/-- File contents, modelled as strings of bytes. -/
abbrev Content := String

/-- os.path.join of a directory path and an entry name. -/
def joinP (d n : String) : String := d ++ ("/") ++ n

/-- Python str.lower, written on the character list so that it evaluates inside
    the kernel. -/
def pyLower (s : String) : String := String.mk (s.data.map Char.toLower)

/-- Python str.startswith, written on the character lists. -/
def startsW (s pre : String) : Bool := pre.data.isPrefixOf s.data

/-- Python string slicing s[n:], written on the character list. -/
def dropStr (s : String) (n : Nat) : String := String.mk (s.data.drop n)

/-- display_name.replace of the path separator by a dash (canvassync.py line 228),
    written on the character list. -/
def sanitize (s : String) : String :=
  String.mk (s.data.map (fun c => if c = '/' then '-' else c))

/-- Sanitized file name of an entry, as computed at canvassync.py line 228. -/
def add_before_ext_list (nm e : List Char) : List Char :=
  match nm with
  | [] => e
  | c :: cs => if c = '.' ∧ ¬ ('.' ∈ cs) then e ++ c :: cs else c :: add_before_ext_list cs e

/-- add_before_ext (canvassync.py lines 39-46): file_name.rfind of a dot, then the
    splice file_name[:pos] + e + file_name[pos:]; when there is no dot, e is appended.
    The recursion below inserts e exactly before the last dot, which is the same
    splice expressed on character lists. -/
def add_before_ext (file_name e : String) : String :=
  String.mk (add_before_ext_list file_name.toList e.toList)

/-- getfile_insensitive (canvassync.py lines 26-32): iterate over os.listdir of the
    parent directory (the `listing` argument, every entry name, files and
    subdirectories alike, in listing order) and return the joined path of the first
    entry whose lowercased name equals the lowercased target name. -/
def getfile_insensitive (directory : String) (listing : List String) (filename : String) : Option String :=
  match listing with
  | [] => none
  | f :: rest =>
    if pyLower f = pyLower filename then some (joinP directory f)
    else getfile_insensitive directory rest filename

/-- isfile_insensitive (canvassync.py lines 35-36). -/
def isfile_insensitive (directory : String) (listing : List String) (filename : String) : Bool :=
  (getfile_insensitive directory listing filename).isSome

/-- One entry of a local directory listing: a regular file (with content and
    modification time) or a subdirectory. -/
structure FSEntry where
  name : String
  isDir : Bool
  content : Content
  mtime : Int
deriving DecidableEq

/-- The first regular-file entry of the listing with the given name
    (os.path.isfile / open / os.path.getmtime all resolve names this way). -/
def findFile (d : List FSEntry) (n : String) : Option FSEntry :=
  d.find? (fun e => e.name == n && !e.isDir)

/-- os.path.isfile for a name inside the listing `d`. -/
def isfileB (d : List FSEntry) (n : String) : Bool :=
  (findFile d n).isSome

/-- os.path.getmtime for a file of the listing (0 as a junk default: the program
    only reads mtimes of files it has checked to exist). -/
def getmtimeD (d : List FSEntry) (n : String) : Int :=
  ((findFile d n).map FSEntry.mtime).getD 0

/-- Bytes of a file of the listing (empty-string junk default, as for getmtimeD). -/
def localContent (d : List FSEntry) (n : String) : Content :=
  ((findFile d n).map FSEntry.content).getD ("")

/-- open(dest, 'wb') / open(dest, 'w'): create or truncate the file named n and
    give it content c and modification time m. -/
def setFile (d : List FSEntry) (n : String) (c : Content) (m : Int) : List FSEntry :=
  if d.any (fun e => e.name == n) then
    d.map (fun e => if e.name == n then { name := n, isDir := false, content := c, mtime := m } else e)
  else d ++ [{ name := n, isDir := false, content := c, mtime := m }]

/-- os.remove of the file named n from the listing. -/
def removeFileD (d : List FSEntry) (n : String) : List FSEntry :=
  d.filter (fun e => !(e.name == n))

/-- Path(dest).touch(): update the timestamp of an existing entry named n, or create
    an empty file when nothing by that name exists. -/
def touchD (d : List FSEntry) (n : String) (now : Int) : List FSEntry :=
  if d.any (fun e => e.name == n) then
    d.map (fun e => if e.name == n then { e with mtime := now } else e)
  else d ++ [{ name := n, isDir := false, content := "", mtime := now }]

/-- One remote file record as fed to _parse_file: folder_id, url (download_url or a
    special encoding), display_name, and the parsed modified_at timestamp
    (file['_time'] at canvassync.py line 230). -/
structure FileRec where
  folder_id : Nat
  url : String
  display_name : String
  modified_at : Int
deriving DecidableEq

/-- Ambient run context: the HTTP session (url to optional body, none = non-200),
    the wall clock (mtime given to files written without os.utime), the localized
    strftime used for collision suffixes, and the course's folder_dict. -/
structure Ctx where
  net : String → Option Content
  now : Int
  fmtTime : Int → String
  folder_dict : List (Nat × String)

/-- folder_dict lookup (Python dict indexing at canvassync.py line 226; a missing
    key raises KeyError). -/
def lookupFolder (fd : List (Nat × String)) (i : Nat) : Option String :=
  (fd.find? (fun pr => pr.fst == i)).map Prod.snd

/-- Effect of one call to download (canvassync.py lines 49-66) on its destination
    path: nothing (empty url, warning), a write of content with a definite mtime,
    a bare touch, or a raised ConnectionError. -/
inductive DlRes where
  | noWrite
  | wrote (c : Content) (m : Int)
  | touched
  | connError
deriving DecidableEq

/-- The stub written for a URL:-encoded entry (canvassync.py line 55). -/
def urlStub (u : String) : String := "[InternetShortcut]\nURL=" ++ u ++ "\n"

/-- download (canvassync.py lines 49-66). Empty url: warn and return without
    writing. URL:-tagged url: write an internet-shortcut stub (no utime, so its
    mtime is the wall clock). SubHeader:-tagged url: Path.touch. Anything else: GET
    the url; on status 200 write the body and set the mtime to modified_at via
    os.utime; otherwise raise ConnectionError. -/
def download (ctx : Ctx) (f : FileRec) : DlRes :=
  if f.url = "" then DlRes.noWrite
  else if startsW f.url ("URL:") then DlRes.wrote (urlStub (dropStr f.url 4)) ctx.now
  else if startsW f.url ("SubHeader:") then DlRes.touched
  else
    match ctx.net f.url with
    | some c => DlRes.wrote c f.modified_at
    | none => DlRes.connError

/-- Apply a download effect to the destination name n inside listing d. -/
def applyDl (now : Int) (d : List FSEntry) (n : String) : DlRes → List FSEntry
  | DlRes.noWrite => d
  | DlRes.wrote c m => setFile d n c m
  | DlRes.touched => touchD d n now
  | DlRes.connError => d

/-- Content and mtime of the scratch NamedTemporaryFile after download ran against
    it: it is created empty with the wall clock as mtime, so only a real write
    changes it (a touch refreshes the timestamp of the just-created empty file). -/
def tempOf (now : Int) : DlRes → Content × Int
  | DlRes.wrote c m => (c, m)
  | _ => (("") , now)

/-- filecmp.cmp with its default shallow=True on two regular files: equal stat
    signatures (size and mtime) short-circuit to True; different sizes give False;
    otherwise the bytes are compared exactly. -/
def fcmp (c1 : Content) (m1 : Int) (c2 : Content) (m2 : Int) : Bool :=
  if c1.length == c2.length && m1 == m2 then true
  else if !(c1.length == c2.length) then false
  else c1 == c2

/-- Log lines the reconciler can emit per entry: the download warning for an
    empty url (canvassync.py line 51) and the printed ConnectionError args
    carrying the display name (lines 243, 253, 278). -/
inductive LogMsg where
  | warnIgnored (name : String)
  | connFail (name : String)
deriving DecidableEq

/-- Mutable course state touched by _parse_file: the local tree (directory path to
    listing), file_set (ExpectedPathSet), the four counters, and the log. -/
structure St where
  fs : List (String × List FSEntry)
  file_set : List String
  downloaded : Nat
  updated : Nat
  skipped : Nat
  errors : Nat
  log : List LogMsg
deriving DecidableEq

/-- Listing of the directory at path p ([] when the path is unknown; the program
    only consults directories it has created). -/
def getDir (fs : List (String × List FSEntry)) (p : String) : List FSEntry :=
  ((fs.find? (fun pr => pr.fst == p)).map Prod.snd).getD []

/-- Replace the listing at path p (or record it when the path is new). -/
def setDir (fs : List (String × List FSEntry)) (p : String) (d : List FSEntry) :
    List (String × List FSEntry) :=
  if fs.any (fun pr => pr.fst == p) then
    fs.map (fun pr => if pr.fst == p then (p, d) else pr)
  else fs ++ [(p, d)]

/-- set.add on the path set. -/
def addSet (s : List String) (x : String) : List String :=
  if s.contains x then s else s ++ [x]

/-- Sanitized file name of an entry (canvassync.py line 228). -/
def fileName (f : FileRec) : String := sanitize f.display_name

/-- The branch-1 guard of _parse_file (canvassync.py line 233): the resolved path
    is not a regular file, yet some entry of the parent listing matches it up to
    letter case. -/
def collisionCase (loc : String) (d : List FSEntry) (n : String) : Bool :=
  !(isfileB d n) && isfile_insensitive loc (d.map FSEntry.name) n

/-- The branch-2 guard of _parse_file (canvassync.py line 247): the resolved path
    is a regular file strictly older than the remote modified_at. -/
def staleCase (d : List FSEntry) (n : String) (mo : Int) : Bool :=
  isfileB d n && decide (getmtimeD d n < mo)

/-- _parse_file (canvassync.py lines 224-285). The folder_dict lookup raises
    KeyError when the folder id is unknown (modelled as Except.error); every other
    path returns normally, a caught ConnectionError counting as an error. -/
def parse_file (ctx : Ctx) (st : St) (f : FileRec) : Except String St :=
  match lookupFolder ctx.folder_dict f.folder_id with
  | none => Except.error ("KeyError: folder_id")
  | some file_location =>
    let file_name := fileName f
    let file_path := joinP file_location file_name
    let d := getDir st.fs file_location
    if collisionCase file_location d file_name then
      -- append ' c' and the localized modified time to the name, then download
      let file_name1 := add_before_ext file_name ((" c") ++ ctx.fmtTime f.modified_at)
      let file_path1 := joinP file_location file_name1
      match download ctx f with
      | DlRes.connError =>
        Except.ok { st with errors := st.errors + 1,
                            log := st.log ++ [LogMsg.connFail f.display_name] }
      | r =>
        Except.ok { st with fs := setDir st.fs file_location (applyDl ctx.now d file_name1 r),
                            downloaded := st.downloaded + 1,
                            log := if r = DlRes.noWrite
                                   then st.log ++ [LogMsg.warnIgnored f.display_name]
                                   else st.log,
                            file_set := addSet st.file_set file_path1 }
    else if staleCase d file_name f.modified_at then
      -- download to a scratch file, then filecmp.cmp against the local copy
      match download ctx f with
      | DlRes.connError =>
        Except.ok { st with errors := st.errors + 1,
                            log := st.log ++ [LogMsg.connFail f.display_name] }
      | r =>
        let tc := tempOf ctx.now r
        let logw := if r = DlRes.noWrite
                    then st.log ++ [LogMsg.warnIgnored f.display_name]
                    else st.log
        if !(fcmp (localContent d file_name) (getmtimeD d file_name) tc.fst tc.snd) then
          Except.ok { st with fs := setDir st.fs file_location
                                      (setFile (removeFileD d file_name) file_name tc.fst tc.snd),
                              updated := st.updated + 1,
                              log := logw,
                              file_set := addSet st.file_set file_path }
        else
          Except.ok { st with skipped := st.skipped + 1,
                              log := logw,
                              file_set := addSet st.file_set file_path }
    else if !(isfileB d file_name) && !(f.url == "") then
      match download ctx f with
      | DlRes.connError =>
        Except.ok { st with errors := st.errors + 1,
                            log := st.log ++ [LogMsg.connFail f.display_name] }
      | r =>
        Except.ok { st with fs := setDir st.fs file_location (applyDl ctx.now d file_name r),
                            downloaded := st.downloaded + 1,
                            log := if r = DlRes.noWrite
                                   then st.log ++ [LogMsg.warnIgnored f.display_name]
                                   else st.log,
                            file_set := addSet st.file_set file_path }
    else
      Except.ok { st with skipped := st.skipped + 1,
                          file_set := addSet st.file_set file_path }

/-- do_all_pages applies _parse_file to a list of file records in order
    (canvassync.py lines 69-79 feeding lines 224-285); an uncaught exception
    aborts the traversal. -/
def runCatalog (ctx : Ctx) : St → List FileRec → Except String St
  | st, [] => Except.ok st
  | st, f :: rest =>
    match parse_file ctx st f with
    | Except.error e => Except.error e
    | Except.ok st1 => runCatalog ctx st1 rest

/-- One page of a paginated listing: its JSON array of items and the URL of the
    next-relation link ("" when the response has no such link, the KeyError
    branch at canvassync.py lines 74-77). -/
structure Page (α : Type) where
  items : List α
  next : String
deriving DecidableEq

/-- Result of the page loop: the items delivered to the handler in order, an abort
    from raise_for_status, or fuel exhaustion (a diverging chain of links). -/
inductive PgRes (α : Type) where
  | ok (xs : List α)
  | fail
  | fuelOut
deriving DecidableEq

/-- do_all_pages (canvassync.py lines 69-79): while the url is non-empty, GET it,
    abort the run on a non-success status, read the next link (or ""), and hand
    every item of the page to the handler in array order. Fuel bounds the number
    of fetched pages so the loop is total. -/
def do_all_pages {α : Type} (net : String → Option (Page α)) : Nat → String → PgRes α
  | 0, u => if u = "" then PgRes.ok [] else PgRes.fuelOut
  | fuel + 1, u =>
    if u = "" then PgRes.ok []
    else
      match net u with
      | none => PgRes.fail
      | some p =>
        match do_all_pages net fuel p.next with
        | PgRes.ok xs => PgRes.ok (p.items ++ xs)
        | r => r

/-- The pages net serves starting from u form this chain, whose last next-link
    is v. -/
def isChainTo {α : Type} (net : String → Option (Page α)) : String → List (Page α) → String → Prop
  | u, [], v => u = v
  | u, p :: ps, v => u ≠ "" ∧ net u = some p ∧ isChainTo net p.next ps v

/-
  Model of onto_local (canvassync.py lines 146-166), the pruning pass.
  Paths are lists of components relative to the course directory, so splitting
  on the separator and os.path.join are concatenation. The local tree is a
  flat pair of path sets: existing files and existing directories (the course
  root is the [] directory). os.walk is lazy, but while it runs the pass only
  deletes files directly inside already-visited roots and whole not-yet-visited
  subtrees, so every visited directory still shows exactly its initial listing;
  the walk is therefore modelled as the triples computed from the initial tree,
  with the root-existence re-check of line 149 deciding whether a triple still
  applies (a directory that vanished since the walk started is skipped).
-/

/-- Flat local tree for the pruning pass: existing file paths and existing
    directory paths, as component lists relative to the course directory. -/
structure PruneFS where
  files : List (List String)
  dirs : List (List String)
deriving DecidableEq

/-- The reserved exclusion-zone directory name. -/
def oldName : String := ".old"

/-- isPre a b: a is a leading run of b's components (a is an ancestor-or-self
    path of b). -/
def isPre : List String → List String → Bool
  | [], _ => true
  | _ :: _, [] => false
  | a :: as, b :: bs => a == b && isPre as bs

/-- os.remove during the pruning pass: drop the file at path q. -/
def premoveFile (p : PruneFS) (q : List String) : PruneFS :=
  { p with files := p.files.filter (fun r => !(r == q)) }

/-- shutil.rmtree during the pruning pass: drop everything at or below path q. -/
def premoveTree (p : PruneFS) (q : List String) : PruneFS :=
  { files := p.files.filter (fun r => !(isPre q r)),
    dirs := p.dirs.filter (fun r => !(isPre q r)) }

/-- The names whose paths sit directly inside directory d, in the order the
    path list provides them. -/
def childNamesOf (ps : List (List String)) (d : List String) : List String :=
  ps.filterMap (fun p => if p.dropLast == d then p.getLast? else none)

/-- The (root, dirnames, filenames) triples os.walk produced from the initial
    tree, one per directory. -/
def walkTriples (p : PruneFS) : List (List String × List String × List String) :=
  p.dirs.map (fun d => (d, childNamesOf p.dirs d, childNamesOf p.files d))

/-- The per-file body of the pruning loop (canvassync.py lines 151-157): delete
    the file at root ++ [fn] unless its path is in file_set. -/
def fileSweep (fset : List (List String)) (root : List String) : PruneFS → String → PruneFS :=
  fun a fn => if fset.contains (root ++ [fn]) then a else premoveFile a (root ++ [fn])

/-- The per-subdirectory body of the pruning loop (canvassync.py lines 158-166):
    keep .old, keep directories recorded in folder_dict's values, rmtree the
    rest. -/
def dirSweep (fdirs : List (List String)) (root : List String) : PruneFS → String → PruneFS :=
  fun a dn =>
    if dn == oldName then a
    else if fdirs.contains (root ++ [dn]) then a
    else premoveTree a (root ++ [dn])

/-- Processing of one os.walk triple (canvassync.py lines 148-166): skip roots
    with a .old component and roots that no longer exist; remove files whose
    joined path is not in file_set; remove, recursively, subdirectories that are
    not named .old and whose joined path is not among folder_dict's values. -/
def ontoLocalStep (fset fdirs : List (List String)) (p : PruneFS)
    (t : List String × List String × List String) : PruneFS :=
  if t.fst.contains oldName || !(p.dirs.contains t.fst) then p
  else t.snd.fst.foldl (dirSweep fdirs t.fst) (t.snd.snd.foldl (fileSweep fset t.fst) p)

/-- onto_local (canvassync.py lines 146-166): fold the walk's triples over the
    tree, deleting stale files and stale directories. -/
def onto_local (fset fdirs : List (List String)) (p : PruneFS) : PruneFS :=
  (walkTriples p).foldl (ontoLocalStep fset fdirs) p

-- ====================== witness fixtures ======================

/-- A concrete run context for witnesses: one folder (id 1, directory C), a net
    that serves body B1 for url u1 and fails every other url, wall clock 7, and a
    constant timestamp format. -/
def wCtx : Ctx :=
  { net := fun u => if u = "u1" then some ("B1") else none,
    now := 7,
    fmtTime := fun _ => "T1",
    folder_dict := [(1, "C")] }

/-- An empty initial course state for witnesses. -/
def wSt0 : St :=
  { fs := [], file_set := [], downloaded := 0, updated := 0, skipped := 0, errors := 0, log := [] }

/-- Counters of a course state, for compact counterexample statements. -/
def stCounts (st : St) : Nat × Nat × Nat × Nat :=
  (st.downloaded, st.updated, st.skipped, st.errors)

/-- Entry preconditions for the idempotence statement: a plain content url (no
    empty, URL: or SubHeader: encoding), a fetch that succeeds, and a folder id
    that resolves through folder_dict. -/
def Pre (ctx : Ctx) (f : FileRec) : Prop :=
  f.url ≠ "" ∧ startsW f.url ("URL:") = false ∧ startsW f.url ("SubHeader:") = false ∧
  (ctx.net f.url).isSome = true ∧ (lookupFolder ctx.folder_dict f.folder_id).isSome = true

/-- The entry's resolved directory (junk default when the folder id is unknown). -/
def locOf (ctx : Ctx) (f : FileRec) : String :=
  (lookupFolder ctx.folder_dict f.folder_id).getD ("")

/-- The body the net serves for the entry's url (junk default on failure). -/
def bOf (ctx : Ctx) (f : FileRec) : Content :=
  (ctx.net f.url).getD ("")

/-- No entry of the target directory matches the entry's name up to letter case,
    except possibly the exact regular file itself — this is what keeps the
    case-collision branch from firing. -/
def DirOK (ctx : Ctx) (fs : List (String × List FSEntry)) (f : FileRec) : Prop :=
  ∀ e ∈ getDir fs (locOf ctx f), pyLower e.name = pyLower (fileName f) →
    e.name = fileName f ∧ e.isDir = false

/-- After a pass over the entry, its resolved path holds a regular file that is
    at least as new as the remote modified_at or byte-identical to the fetched
    body — exactly what makes a re-run classify the entry as skipped. -/
def GoodF (ctx : Ctx) (fs : List (String × List FSEntry)) (f : FileRec) : Prop :=
  isfileB (getDir fs (locOf ctx f)) (fileName f) = true ∧
  (f.modified_at ≤ getmtimeD (getDir fs (locOf ctx f)) (fileName f) ∨
   localContent (getDir fs (locOf ctx f)) (fileName f) = bOf ctx f)

/-- Two entries whose resolved paths cannot interfere, even up to letter case. -/
def Distinct2 (ctx : Ctx) (f g : FileRec) : Prop :=
  locOf ctx f ≠ locOf ctx g ∨ pyLower (fileName f) ≠ pyLower (fileName g)

/-- A net for the idempotence counterexample that serves both u1 and u2. -/
def wCtx4 : Ctx :=
  { net := fun u => if u = "u1" then some ("B1") else if u = "u2" then some ("B2") else none,
    now := 7,
    fmtTime := fun _ => "T1",
    folder_dict := [(1, "C")] }

/-- A three-page listing for the pagination witness: p1 links to p2 links to p3,
    which has no next link. -/
def w5net : String → Option (Page Nat) := fun u =>
  if u = "p1" then some { items := [1, 2], next := "p2" }
  else if u = "p2" then some { items := [3, 4], next := "p3" }
  else if u = "p3" then some { items := [5, 6], next := "" }
  else none

/-- A listing whose second page fetch fails, for the pagination witness. -/
def w5netF : String → Option (Page Nat) := fun u =>
  if u = "p1" then some { items := [1, 2], next := "pX" } else none

/-- The reset performed between two runs: a fresh Course object keeps the local
    tree but starts with empty counters, an empty file_set and an empty log. -/
def resetSt (st : St) : St :=
  { fs := st.fs, file_set := [], downloaded := 0, updated := 0, skipped := 0, errors := 0, log := [] }

-- ====================== theorems ======================

theorem findFile_setFile_self (d : List FSEntry) (n : String) (c : Content) (m : Int) :
    findFile (setFile d n c m) n = some { name := n, isDir := false, content := c, mtime := m } := by
  unfold setFile
  by_cases h : d.any (fun e => e.name == n) = true
  · rw [if_pos h]
    induction d with
    | nil => simp at h
    | cons e es ih =>
      by_cases he : e.name = n
      · subst he
        simp only [beq_self_eq_true, if_true, List.map_cons]
        exact List.find?_cons_of_pos _ (by simp)
      · have hb : (e.name == n) = false := by simpa using he
        simp only [List.any_cons, hb, Bool.false_or] at h
        simp only [List.map_cons, hb, Bool.false_eq_true, if_false, findFile] at ih ⊢
        rw [List.find?_cons_of_neg _ (by simp [hb])]
        exact ih h
  · rw [if_neg h]
    induction d with
    | nil =>
      unfold findFile
      simp only [List.nil_append]
      exact List.find?_cons_of_pos _ (by simp)
    | cons e es ih =>
      simp only [List.any_cons, Bool.or_eq_true, not_or] at h
      have hb : (e.name == n) = false := by simpa using (Bool.eq_false_iff.mpr h.1)
      simp only [List.cons_append, findFile] at ih ⊢
      rw [List.find?_cons_of_neg _ (by simp [hb])]
      exact ih (by simpa using h.2)

theorem findFile_setFile_ne (d : List FSEntry) (n n' : String) (c : Content) (m : Int)
    (hne : n' ≠ n) :
    findFile (setFile d n c m) n' = findFile d n' := by
  have hb0 : (n == n') = false := by simpa using fun hc => hne hc.symm
  unfold setFile
  by_cases h : d.any (fun e => e.name == n) = true
  · rw [if_pos h]
    clear h
    induction d with
    | nil => rfl
    | cons e es ih =>
      by_cases he : e.name = n
      · subst he
        simp only [beq_self_eq_true, if_true, List.map_cons, findFile] at ih ⊢
        rw [List.find?_cons_of_neg _ (by simp [hb0]),
            List.find?_cons_of_neg _ (by simp [hb0])]
        exact ih
      · have hb : (e.name == n) = false := by simpa using he
        simp only [List.map_cons, hb, Bool.false_eq_true, if_false, findFile] at ih ⊢
        cases hb2 : (fun e => e.name == n' && !e.isDir) e
        · rw [List.find?_cons_of_neg _ (by simp [hb2]), List.find?_cons_of_neg _ (by simp [hb2])]
          exact ih
        · rw [List.find?_cons_of_pos, List.find?_cons_of_pos] <;> exact hb2
  · rw [if_neg h]
    induction d with
    | nil =>
      unfold findFile
      simp only [List.nil_append, List.find?_nil]
      rw [List.find?_cons_of_neg _ (by simp [hb0]), List.find?_nil]
    | cons e es ih =>
      simp only [List.any_cons, Bool.or_eq_true, not_or] at h
      simp only [List.cons_append, findFile] at ih ⊢
      cases hb2 : (fun e => e.name == n' && !e.isDir) e
      · rw [List.find?_cons_of_neg _ (by simp [hb2]), List.find?_cons_of_neg _ (by simp [hb2])]
        exact ih h.2
      · rw [List.find?_cons_of_pos, List.find?_cons_of_pos] <;> exact hb2

theorem findFile_removeFileD_self (d : List FSEntry) (n : String) :
    findFile (removeFileD d n) n = none := by
  unfold removeFileD
  induction d with
  | nil => rfl
  | cons e es ih =>
    by_cases he : e.name = n
    · have hb : (e.name == n) = true := by simpa using he
      simp only [List.filter_cons, hb, Bool.not_true, Bool.false_eq_true, if_false]
      exact ih
    · have hb : (e.name == n) = false := by simpa using he
      simp only [List.filter_cons, hb, Bool.not_false, if_true, findFile] at ih ⊢
      rw [List.find?_cons_of_neg _ (by simp [hb])]
      exact ih

theorem findFile_removeFileD_ne (d : List FSEntry) (n n' : String) (hne : n' ≠ n) :
    findFile (removeFileD d n) n' = findFile d n' := by
  unfold removeFileD
  induction d with
  | nil => rfl
  | cons e es ih =>
    by_cases he : e.name = n
    · have hb : (e.name == n) = true := by simpa using he
      have hb' : (e.name == n') = false := by
        subst he
        simpa using fun hc => hne hc.symm
      simp only [List.filter_cons, hb, Bool.not_true, Bool.false_eq_true, if_false, findFile] at ih ⊢
      rw [List.find?_cons_of_neg _ (by simp [hb'])]
      exact ih
    · have hb : (e.name == n) = false := by simpa using he
      simp only [List.filter_cons, hb, Bool.not_false, if_true, findFile] at ih ⊢
      cases hb2 : (fun e => e.name == n' && !e.isDir) e
      · rw [List.find?_cons_of_neg _ (by simp [hb2]), List.find?_cons_of_neg _ (by simp [hb2])]
        exact ih
      · rw [List.find?_cons_of_pos, List.find?_cons_of_pos] <;> exact hb2

theorem mem_setFile (d : List FSEntry) (n : String) (c : Content) (m : Int) (e : FSEntry)
    (he : e ∈ setFile d n c m) :
    e ∈ d ∨ (e.name = n ∧ e.isDir = false) := by
  unfold setFile at he
  by_cases h : d.any (fun e => e.name == n) = true
  · rw [if_pos h] at he
    rcases List.mem_map.mp he with ⟨x, hx, hxe⟩
    by_cases hxn : (x.name == n) = true
    · right
      rw [if_pos hxn] at hxe
      rw [← hxe]
      exact ⟨rfl, rfl⟩
    · left
      rw [if_neg hxn] at hxe
      exact hxe ▸ hx
  · rw [if_neg h] at he
    rcases List.mem_append.mp he with h1 | h1
    · exact Or.inl h1
    · right
      rcases List.mem_singleton.mp h1 with rfl
      exact ⟨rfl, rfl⟩

theorem mem_removeFileD (d : List FSEntry) (n : String) (e : FSEntry)
    (he : e ∈ removeFileD d n) : e ∈ d :=
  List.mem_of_mem_filter he

theorem getDir_setDir_self (fs : List (String × List FSEntry)) (p : String) (d : List FSEntry) :
    getDir (setDir fs p d) p = d := by
  unfold setDir
  by_cases h : fs.any (fun pr => pr.fst == p) = true
  · rw [if_pos h]
    induction fs with
    | nil => simp at h
    | cons pr rest ih =>
      by_cases hp : pr.fst = p
      · have hb : (pr.fst == p) = true := by simpa using hp
        simp only [List.map_cons, hb, if_true, getDir]
        rw [List.find?_cons_of_pos _ (by simp)]
        rfl
      · have hb : (pr.fst == p) = false := by simpa using hp
        simp only [List.any_cons, hb, Bool.false_or] at h
        simp only [List.map_cons, hb, Bool.false_eq_true, if_false, getDir] at ih ⊢
        rw [List.find?_cons_of_neg _ (by simp [hb])]
        exact ih h
  · rw [if_neg h]
    induction fs with
    | nil =>
      unfold getDir
      simp only [List.nil_append]
      rw [List.find?_cons_of_pos _ (by simp)]
      rfl
    | cons pr rest ih =>
      simp only [List.any_cons, Bool.or_eq_true, not_or] at h
      have hb : (pr.fst == p) = false := by simpa using (Bool.eq_false_iff.mpr h.1)
      simp only [List.cons_append, getDir] at ih ⊢
      rw [List.find?_cons_of_neg _ (by simp [hb])]
      exact ih (by simpa using h.2)

theorem getDir_setDir_ne (fs : List (String × List FSEntry)) (p q : String) (d : List FSEntry)
    (hne : q ≠ p) :
    getDir (setDir fs p d) q = getDir fs q := by
  have hb0 : (p == q) = false := by simpa using fun hc => hne hc.symm
  unfold setDir
  by_cases h : fs.any (fun pr => pr.fst == p) = true
  · rw [if_pos h]
    clear h
    induction fs with
    | nil => rfl
    | cons pr rest ih =>
      by_cases hp : pr.fst = p
      · have hb : (pr.fst == p) = true := by simpa using hp
        have hb2 : (pr.fst == q) = false := by
          have : pr.fst = p := hp
          rw [this]
          exact hb0
        simp only [List.map_cons, hb, if_true, getDir] at ih ⊢
        rw [List.find?_cons_of_neg _ (by simp [hb0]), List.find?_cons_of_neg _ (by simp [hb2])]
        exact ih
      · have hb : (pr.fst == p) = false := by simpa using hp
        simp only [List.map_cons, hb, Bool.false_eq_true, if_false, getDir] at ih ⊢
        cases hb2 : (fun pr => pr.fst == q) pr
        · rw [List.find?_cons_of_neg _ (by simp [hb2]), List.find?_cons_of_neg _ (by simp [hb2])]
          exact ih
        · rw [List.find?_cons_of_pos, List.find?_cons_of_pos] <;> exact hb2
  · rw [if_neg h]
    induction fs with
    | nil =>
      unfold getDir
      simp only [List.nil_append, List.find?_nil]
      rw [List.find?_cons_of_neg _ (by simp [hb0]), List.find?_nil]
    | cons pr rest ih =>
      simp only [List.any_cons, Bool.or_eq_true, not_or] at h
      simp only [List.cons_append, getDir] at ih ⊢
      cases hb2 : (fun pr => pr.fst == q) pr
      · rw [List.find?_cons_of_neg _ (by simp [hb2]), List.find?_cons_of_neg _ (by simp [hb2])]
        exact ih h.2
      · rw [List.find?_cons_of_pos, List.find?_cons_of_pos] <;> exact hb2

theorem mem_addSet_self (s : List String) (x : String) : x ∈ addSet s x := by
  unfold addSet
  by_cases h : s.contains x = true
  · rw [if_pos h]
    simpa using h
  · rw [if_neg h]
    simp

theorem download_regular (ctx : Ctx) (f : FileRec) (b : Content)
    (h0 : f.url ≠ "") (h1 : startsW f.url ("URL:") = false)
    (h2 : startsW f.url ("SubHeader:") = false) (hnet : ctx.net f.url = some b) :
    download ctx f = DlRes.wrote b f.modified_at := by
  unfold download
  rw [if_neg h0]
  simp only [h1, h2, Bool.false_eq_true, if_false, hnet]

theorem download_fail (ctx : Ctx) (f : FileRec)
    (h0 : f.url ≠ "") (h1 : startsW f.url ("URL:") = false)
    (h2 : startsW f.url ("SubHeader:") = false) (hnet : ctx.net f.url = none) :
    download ctx f = DlRes.connError := by
  unfold download
  rw [if_neg h0]
  simp only [h1, h2, Bool.false_eq_true, if_false, hnet]

theorem download_empty (ctx : Ctx) (f : FileRec) (h0 : f.url = "") :
    download ctx f = DlRes.noWrite := by
  unfold download
  rw [if_pos h0]

theorem download_urlstub (ctx : Ctx) (f : FileRec)
    (h0 : f.url ≠ "") (h1 : startsW f.url ("URL:") = true) :
    download ctx f = DlRes.wrote (urlStub (dropStr f.url 4)) ctx.now := by
  unfold download
  rw [if_neg h0]
  simp only [h1, if_true]

theorem download_subheader (ctx : Ctx) (f : FileRec)
    (h0 : f.url ≠ "") (h1 : startsW f.url ("URL:") = false)
    (h2 : startsW f.url ("SubHeader:") = true) :
    download ctx f = DlRes.touched := by
  unfold download
  rw [if_neg h0]
  simp only [h1, h2, Bool.false_eq_true, if_false, if_true]

theorem fcmp_of_eq (c : Content) (m1 m2 : Int) : fcmp c m1 c m2 = true := by
  unfold fcmp
  by_cases h : m1 = m2
  · simp [h]
  · simp [h]

theorem fcmp_eq_of_mtime_ne (c1 c2 : Content) (m1 m2 : Int) (hm : m1 ≠ m2) :
    fcmp c1 m1 c2 m2 = true ↔ c1 = c2 := by
  unfold fcmp
  have hb : (m1 == m2) = false := by simpa using hm
  by_cases hl : c1.length = c2.length
  · simp [hl, hb]
  · have hlb : (c1.length == c2.length) = false := by simpa using hl
    simp only [hlb, Bool.false_and, Bool.false_eq_true, if_false, Bool.not_false, if_true]
    constructor
    · intro h'
      exact h'.elim
    · intro h'
      exact absurd (congrArg String.length h') hl

theorem getfile_insensitive_isSome (dir : String) (l : List String) (n : String) :
    (getfile_insensitive dir l n).isSome = true ↔ ∃ m ∈ l, pyLower m = pyLower n := by
  induction l with
  | nil => simp [getfile_insensitive]
  | cons a l ih =>
    by_cases ha : pyLower a = pyLower n
    · simp [getfile_insensitive, ha]
    · simp only [getfile_insensitive, if_neg ha, ih, List.mem_cons]
      constructor
      · rintro ⟨m, hm, hml⟩
        exact ⟨m, Or.inr hm, hml⟩
      · rintro ⟨m, hm | hm, hml⟩
        · exact absurd (hm ▸ hml) ha
        · exact ⟨m, hm, hml⟩

theorem getfile_insensitive_eq_find (dir : String) (l : List String) (n : String) :
    getfile_insensitive dir l n
      = (l.find? (fun m => pyLower m == pyLower n)).map (fun m => joinP dir m) := by
  induction l with
  | nil => rfl
  | cons a l ih =>
    by_cases ha : pyLower a = pyLower n
    · rw [getfile_insensitive, if_pos ha, List.find?_cons_of_pos _ (by simpa using ha)]
      rfl
    · rw [getfile_insensitive, if_neg ha, List.find?_cons_of_neg _ (by simpa using ha)]
      exact ih

theorem collisionCase_of_isfile (loc : String) (d : List FSEntry) (n : String)
    (h : isfileB d n = true) : collisionCase loc d n = false := by
  unfold collisionCase
  simp [h]

theorem collisionCase_false_of_exact (loc : String) (d : List FSEntry) (n : String)
    (h : ∀ e ∈ d, pyLower e.name = pyLower n → e.name = n ∧ e.isDir = false) :
    collisionCase loc d n = false := by
  by_cases hfb : isfileB d n = true
  · exact collisionCase_of_isfile loc d n hfb
  · have hf : isfileB d n = false := Bool.eq_false_iff.mpr hfb
    have hins : isfile_insensitive loc (d.map FSEntry.name) n = false := by
      unfold isfile_insensitive
      rw [Bool.eq_false_iff]
      intro hs
      rcases (getfile_insensitive_isSome loc (d.map FSEntry.name) n).mp hs with ⟨m, hm, hml⟩
      rcases List.mem_map.mp hm with ⟨e, he, rfl⟩
      rcases h e he hml with ⟨hn, hd⟩
      apply hfb
      unfold isfileB findFile
      exact List.find?_isSome.mpr ⟨e, he, by simp [hn, hd]⟩
    unfold collisionCase
    rw [hf, hins]
    rfl

theorem collisionCase_true_of (loc : String) (d : List FSEntry) (n : String)
    (hf : isfileB d n = false) (e : FSEntry) (he : e ∈ d) (hml : pyLower e.name = pyLower n) :
    collisionCase loc d n = true := by
  unfold collisionCase
  rw [hf]
  simp only [Bool.not_false, Bool.true_and]
  unfold isfile_insensitive
  exact (getfile_insensitive_isSome loc (d.map FSEntry.name) n).mpr
    ⟨e.name, List.mem_map.mpr ⟨e, he, rfl⟩, hml⟩

theorem staleCase_false_of_fresh (d : List FSEntry) (n : String) (mo : Int)
    (h : ¬ (getmtimeD d n < mo)) : staleCase d n mo = false := by
  unfold staleCase
  simp [h]

theorem staleCase_false_of_nofile (d : List FSEntry) (n : String) (mo : Int)
    (h : isfileB d n = false) : staleCase d n mo = false := by
  unfold staleCase
  simp [h]

theorem parse_file_keyerror (ctx : Ctx) (st : St) (f : FileRec)
    (hloc : lookupFolder ctx.folder_dict f.folder_id = none) :
    parse_file ctx st f = Except.error ("KeyError: folder_id") := by
  unfold parse_file
  rw [hloc]

theorem parse_file_b1_err (ctx : Ctx) (st : St) (f : FileRec) (loc : String)
    (hloc : lookupFolder ctx.folder_dict f.folder_id = some loc)
    (h1 : collisionCase loc (getDir st.fs loc) (fileName f) = true)
    (hdl : download ctx f = DlRes.connError) :
    parse_file ctx st f = Except.ok
      { st with
        errors := st.errors + 1,
        log := st.log ++ [LogMsg.connFail f.display_name] } := by
  unfold parse_file
  rw [hloc]
  simp only [h1, if_true, hdl]

theorem parse_file_b1_ok (ctx : Ctx) (st : St) (f : FileRec) (loc : String) (r : DlRes)
    (hloc : lookupFolder ctx.folder_dict f.folder_id = some loc)
    (h1 : collisionCase loc (getDir st.fs loc) (fileName f) = true)
    (hdl : download ctx f = r) (hr : r ≠ DlRes.connError) :
    parse_file ctx st f = Except.ok
      { st with
        fs := setDir st.fs loc (applyDl ctx.now (getDir st.fs loc)
                (add_before_ext (fileName f) ((" c") ++ ctx.fmtTime f.modified_at)) r),
        downloaded := st.downloaded + 1,
        log := if r = DlRes.noWrite then st.log ++ [LogMsg.warnIgnored f.display_name] else st.log,
        file_set := addSet st.file_set
          (joinP loc (add_before_ext (fileName f) ((" c") ++ ctx.fmtTime f.modified_at))) } := by
  unfold parse_file
  rw [hloc]
  cases r with
  | connError => exact absurd rfl hr
  | noWrite => simp only [h1, if_true, hdl]
  | wrote c m => simp only [h1, if_true, hdl]
  | touched => simp only [h1, if_true, hdl]

theorem parse_file_b2_err (ctx : Ctx) (st : St) (f : FileRec) (loc : String)
    (hloc : lookupFolder ctx.folder_dict f.folder_id = some loc)
    (h1 : collisionCase loc (getDir st.fs loc) (fileName f) = false)
    (h2 : staleCase (getDir st.fs loc) (fileName f) f.modified_at = true)
    (hdl : download ctx f = DlRes.connError) :
    parse_file ctx st f = Except.ok
      { st with
        errors := st.errors + 1,
        log := st.log ++ [LogMsg.connFail f.display_name] } := by
  unfold parse_file
  rw [hloc]
  simp only [h1, Bool.false_eq_true, if_false, h2, if_true, hdl]

theorem parse_file_b2_ok (ctx : Ctx) (st : St) (f : FileRec) (loc : String) (r : DlRes)
    (hloc : lookupFolder ctx.folder_dict f.folder_id = some loc)
    (h1 : collisionCase loc (getDir st.fs loc) (fileName f) = false)
    (h2 : staleCase (getDir st.fs loc) (fileName f) f.modified_at = true)
    (hdl : download ctx f = r) (hr : r ≠ DlRes.connError) :
    parse_file ctx st f =
      (if !(fcmp (localContent (getDir st.fs loc) (fileName f))
              (getmtimeD (getDir st.fs loc) (fileName f))
              (tempOf ctx.now r).fst (tempOf ctx.now r).snd) then
        Except.ok
          { st with
            fs := setDir st.fs loc (setFile (removeFileD (getDir st.fs loc) (fileName f))
                    (fileName f) (tempOf ctx.now r).fst (tempOf ctx.now r).snd),
            updated := st.updated + 1,
            log := if r = DlRes.noWrite then st.log ++ [LogMsg.warnIgnored f.display_name] else st.log,
            file_set := addSet st.file_set (joinP loc (fileName f)) }
      else
        Except.ok
          { st with
            skipped := st.skipped + 1,
            log := if r = DlRes.noWrite then st.log ++ [LogMsg.warnIgnored f.display_name] else st.log,
            file_set := addSet st.file_set (joinP loc (fileName f)) }) := by
  unfold parse_file
  rw [hloc]
  cases r with
  | connError => exact absurd rfl hr
  | noWrite => simp only [h1, Bool.false_eq_true, if_false, h2, if_true, hdl]
  | wrote c m => simp only [h1, Bool.false_eq_true, if_false, h2, if_true, hdl]
  | touched => simp only [h1, Bool.false_eq_true, if_false, h2, if_true, hdl]

theorem parse_file_b3_err (ctx : Ctx) (st : St) (f : FileRec) (loc : String)
    (hloc : lookupFolder ctx.folder_dict f.folder_id = some loc)
    (h1 : collisionCase loc (getDir st.fs loc) (fileName f) = false)
    (h2 : staleCase (getDir st.fs loc) (fileName f) f.modified_at = false)
    (h3 : (!(isfileB (getDir st.fs loc) (fileName f)) && !(f.url == "")) = true)
    (hdl : download ctx f = DlRes.connError) :
    parse_file ctx st f = Except.ok
      { st with
        errors := st.errors + 1,
        log := st.log ++ [LogMsg.connFail f.display_name] } := by
  unfold parse_file
  rw [hloc]
  simp only [h1, h2, Bool.false_eq_true, if_false, h3, if_true, hdl]

theorem parse_file_b3_ok (ctx : Ctx) (st : St) (f : FileRec) (loc : String) (r : DlRes)
    (hloc : lookupFolder ctx.folder_dict f.folder_id = some loc)
    (h1 : collisionCase loc (getDir st.fs loc) (fileName f) = false)
    (h2 : staleCase (getDir st.fs loc) (fileName f) f.modified_at = false)
    (h3 : (!(isfileB (getDir st.fs loc) (fileName f)) && !(f.url == "")) = true)
    (hdl : download ctx f = r) (hr : r ≠ DlRes.connError) :
    parse_file ctx st f = Except.ok
      { st with
        fs := setDir st.fs loc (applyDl ctx.now (getDir st.fs loc) (fileName f) r),
        downloaded := st.downloaded + 1,
        log := if r = DlRes.noWrite then st.log ++ [LogMsg.warnIgnored f.display_name] else st.log,
        file_set := addSet st.file_set (joinP loc (fileName f)) } := by
  unfold parse_file
  rw [hloc]
  cases r with
  | connError => exact absurd rfl hr
  | noWrite => simp only [h1, h2, Bool.false_eq_true, if_false, h3, if_true, hdl]
  | wrote c m => simp only [h1, h2, Bool.false_eq_true, if_false, h3, if_true, hdl]
  | touched => simp only [h1, h2, Bool.false_eq_true, if_false, h3, if_true, hdl]

theorem isfileB_setFile_self (d : List FSEntry) (n : String) (c : Content) (m : Int) :
    isfileB (setFile d n c m) n = true := by
  unfold isfileB
  rw [findFile_setFile_self]
  rfl

theorem getmtimeD_setFile_self (d : List FSEntry) (n : String) (c : Content) (m : Int) :
    getmtimeD (setFile d n c m) n = m := by
  unfold getmtimeD
  rw [findFile_setFile_self]
  rfl

theorem localContent_setFile_self (d : List FSEntry) (n : String) (c : Content) (m : Int) :
    localContent (setFile d n c m) n = c := by
  unfold localContent
  rw [findFile_setFile_self]
  rfl

theorem findFile_touchD_nodir (d : List FSEntry) (n : String) (now : Int)
    (hnodir : ∀ e ∈ d, ¬ (e.name = n ∧ e.isDir = true)) :
    (findFile (touchD d n now) n).map FSEntry.mtime = some now := by
  unfold touchD
  by_cases h : d.any (fun e => e.name == n) = true
  · rw [if_pos h]
    induction d with
    | nil => simp at h
    | cons e es ih =>
      by_cases he : e.name = n
      · have hd : e.isDir = false := by
          rcases Bool.eq_false_or_eq_true e.isDir with h' | h'
          · exact absurd ⟨he, h'⟩ (hnodir e (List.mem_cons_self e es))
          · exact h'
        have hb : (e.name == n) = true := by simpa using he
        simp only [List.map_cons, hb, if_true, findFile]
        rw [List.find?_cons_of_pos _ (by simp [he, hd])]
        rfl
      · have hb : (e.name == n) = false := by simpa using he
        simp only [List.any_cons, hb, Bool.false_or] at h
        simp only [List.map_cons, hb, Bool.false_eq_true, if_false, findFile] at ih ⊢
        rw [List.find?_cons_of_neg _ (by simp [hb])]
        exact ih (fun e he' hc => hnodir e (List.mem_cons_of_mem _ he') hc) h
  · rw [if_neg h]
    induction d with
    | nil =>
      unfold findFile
      simp only [List.nil_append]
      rw [List.find?_cons_of_pos _ (by simp)]
      rfl
    | cons e es ih =>
      simp only [List.any_cons, Bool.or_eq_true, not_or] at h
      have hb : (e.name == n) = false := by simpa using (Bool.eq_false_iff.mpr h.1)
      simp only [List.cons_append, findFile] at ih ⊢
      rw [List.find?_cons_of_neg _ (by simp [hb])]
      exact ih (fun e he' hc => hnodir e (List.mem_cons_of_mem _ he') hc) (by simpa using h.2)

theorem parse_file_b4 (ctx : Ctx) (st : St) (f : FileRec) (loc : String)
    (hloc : lookupFolder ctx.folder_dict f.folder_id = some loc)
    (h1 : collisionCase loc (getDir st.fs loc) (fileName f) = false)
    (h2 : staleCase (getDir st.fs loc) (fileName f) f.modified_at = false)
    (h3 : (!(isfileB (getDir st.fs loc) (fileName f)) && !(f.url == "")) = false) :
    parse_file ctx st f = Except.ok
      { st with
        skipped := st.skipped + 1,
        file_set := addSet st.file_set (joinP loc (fileName f)) } := by
  unfold parse_file
  rw [hloc]
  simp only [h1, h2, h3, Bool.false_eq_true, if_false]

/-- C10: the case-insensitive existence check scans every entry name of the parent
    listing, regular files and subdirectories alike: getfile_insensitive equals the
    find-first over all entry names compared lowercase, returning the joined path of
    the first match in listing order; any entry, in particular a subdirectory, whose
    name matches the target up to letter case makes isfile_insensitive report a
    match, and when no exact regular file is present such an entry makes the
    collision-rename guard of _parse_file fire. -/
theorem c10_insensitive_scan_all_entries (directory filename : String) (d : List FSEntry) :
    (getfile_insensitive directory (d.map FSEntry.name) filename
      = ((d.map FSEntry.name).find? (fun m => pyLower m == pyLower filename)).map
          (fun m => joinP directory m)) ∧
    (∀ e ∈ d, pyLower e.name = pyLower filename →
      isfile_insensitive directory (d.map FSEntry.name) filename = true) ∧
    (∀ e ∈ d, e.isDir = true → pyLower e.name = pyLower filename →
      isfileB d filename = false → collisionCase directory d filename = true) := by
  refine ⟨getfile_insensitive_eq_find directory (d.map FSEntry.name) filename, ?_, ?_⟩
  · intro e he hml
    unfold isfile_insensitive
    exact (getfile_insensitive_isSome directory (d.map FSEntry.name) filename).mpr
      ⟨e.name, List.mem_map.mpr ⟨e, he, rfl⟩, hml⟩
  · intro e he _ hml hf
    exact collisionCase_true_of directory d filename hf e he hml

/-- C10 witness: a listing holding only the subdirectory Sub matches the target
    name sub, and with no exact file present the collision guard fires. -/
theorem c10_insensitive_scan_all_entries_witness :
    isfile_insensitive ("C") ([{ name := "Sub", isDir := true, content := "", mtime := 0 }].map
        FSEntry.name) ("sub") = true ∧
    collisionCase ("C") [{ name := "Sub", isDir := true, content := "", mtime := 0 }] ("sub") = true := by
  constructor
  · exact (c10_insensitive_scan_all_entries ("C") ("sub") _).2.1
      { name := "Sub", isDir := true, content := "", mtime := 0 } (by simp) (by decide)
  · exact (c10_insensitive_scan_all_entries ("C") ("sub") _).2.2
      { name := "Sub", isDir := true, content := "", mtime := 0 } (by simp) rfl (by decide) (by decide)

/-- C8 counterexample: a URL:-encoded entry is written by download (the file
    exists afterwards), but its modification time is the wall clock (7), not the
    remote modified_at (3) — download only calls os.utime in the plain-fetch
    branch, so the claim fails for stub files. -/
theorem c8_counterexample :
    isfileB (applyDl wCtx.now []
      ("x.url") (download wCtx { folder_id := 1, url := "URL:h", display_name := "x.url", modified_at := 3 })) ("x.url") = true ∧
    getmtimeD (applyDl wCtx.now []
      ("x.url") (download wCtx { folder_id := 1, url := "URL:h", display_name := "x.url", modified_at := 3 })) ("x.url") = 7 ∧
    ¬ (getmtimeD (applyDl wCtx.now []
      ("x.url") (download wCtx { folder_id := 1, url := "URL:h", display_name := "x.url", modified_at := 3 })) ("x.url")
        = (3 : Int)) := by
  refine ⟨by decide, by decide, by decide⟩

/-- C8 amended: only files written through a plain content fetch get their
    modification time set to the remote modified_at (and their bytes are the
    fetched body); URL:-shortcut stubs are written with the wall clock as
    modification time and the InternetShortcut body, and SubHeader placeholders
    are touched, which also leaves the wall clock as modification time. -/
theorem c8_mtime_amended (ctx : Ctx) (f : FileRec) (d : List FSEntry) (n : String) (b : Content) :
    ((f.url ≠ "" ∧ startsW f.url ("URL:") = false ∧ startsW f.url ("SubHeader:") = false ∧
        ctx.net f.url = some b) →
      getmtimeD (applyDl ctx.now d n (download ctx f)) n = f.modified_at ∧
      localContent (applyDl ctx.now d n (download ctx f)) n = b) ∧
    ((f.url ≠ "" ∧ startsW f.url ("URL:") = true) →
      getmtimeD (applyDl ctx.now d n (download ctx f)) n = ctx.now ∧
      localContent (applyDl ctx.now d n (download ctx f)) n = urlStub (dropStr f.url 4)) ∧
    ((f.url ≠ "" ∧ startsW f.url ("URL:") = false ∧ startsW f.url ("SubHeader:") = true ∧
        (∀ e ∈ d, ¬ (e.name = n ∧ e.isDir = true))) →
      getmtimeD (applyDl ctx.now d n (download ctx f)) n = ctx.now) := by
  refine ⟨?_, ?_, ?_⟩
  · rintro ⟨h0, h1, h2, hnet⟩
    rw [download_regular ctx f b h0 h1 h2 hnet]
    exact ⟨getmtimeD_setFile_self d n b f.modified_at, localContent_setFile_self d n b f.modified_at⟩
  · rintro ⟨h0, h1⟩
    rw [download_urlstub ctx f h0 h1]
    exact ⟨getmtimeD_setFile_self d n _ ctx.now, localContent_setFile_self d n _ ctx.now⟩
  · rintro ⟨h0, h1, h2, hnodir⟩
    rw [download_subheader ctx f h0 h1 h2]
    show getmtimeD (touchD d n ctx.now) n = ctx.now
    unfold getmtimeD
    rw [findFile_touchD_nodir d n ctx.now hnodir]
    rfl

/-- C1: for a file entry with a plain download url whose resolved path holds a
    regular file strictly older than the remote modified_at and whose fetch
    succeeds, _parse_file fetches the body to a scratch file and settles the entry
    by the bytes alone: identical bytes give skipped with the local tree
    untouched; different bytes give updated with the local file's bytes equal to
    the fetched body afterwards. (The filecmp.cmp shallow shortcut cannot fire
    here: the scratch copy carries mtime modified_at while the local file is
    strictly older, so the stat signatures differ and cmp compares bytes.) -/
theorem c1_stale_byte_exact_update (ctx : Ctx) (st : St) (f : FileRec) (loc : String) (b : Content)
    (hloc : lookupFolder ctx.folder_dict f.folder_id = some loc)
    (h0 : f.url ≠ "") (h1 : startsW f.url ("URL:") = false)
    (h2 : startsW f.url ("SubHeader:") = false)
    (hnet : ctx.net f.url = some b)
    (hfile : isfileB (getDir st.fs loc) (fileName f) = true)
    (hold : getmtimeD (getDir st.fs loc) (fileName f) < f.modified_at) :
    ∃ st1, parse_file ctx st f = Except.ok st1 ∧
      (localContent (getDir st.fs loc) (fileName f) = b →
        st1.skipped = st.skipped + 1 ∧ st1.updated = st.updated ∧
        st1.downloaded = st.downloaded ∧ st1.errors = st.errors ∧ st1.fs = st.fs) ∧
      (localContent (getDir st.fs loc) (fileName f) ≠ b →
        st1.updated = st.updated + 1 ∧ st1.skipped = st.skipped ∧
        st1.downloaded = st.downloaded ∧ st1.errors = st.errors ∧
        localContent (getDir st1.fs loc) (fileName f) = b ∧
        getmtimeD (getDir st1.fs loc) (fileName f) = f.modified_at) := by
  have hcol : collisionCase loc (getDir st.fs loc) (fileName f) = false :=
    collisionCase_of_isfile loc _ _ hfile
  have hstale : staleCase (getDir st.fs loc) (fileName f) f.modified_at = true := by
    unfold staleCase
    simp [hfile, hold]
  have hdl : download ctx f = DlRes.wrote b f.modified_at :=
    download_regular ctx f b h0 h1 h2 hnet
  have heq := parse_file_b2_ok ctx st f loc (DlRes.wrote b f.modified_at)
    hloc hcol hstale hdl (by intro h; cases h)
  have hm : getmtimeD (getDir st.fs loc) (fileName f) ≠ f.modified_at := ne_of_lt hold
  by_cases hc : localContent (getDir st.fs loc) (fileName f) = b
  · have hcmp : fcmp (localContent (getDir st.fs loc) (fileName f))
        (getmtimeD (getDir st.fs loc) (fileName f)) b f.modified_at = true :=
      (fcmp_eq_of_mtime_ne _ _ _ _ hm).mpr hc
    rw [heq]
    simp only [tempOf, hcmp, Bool.not_true, Bool.false_eq_true, if_false]
    refine ⟨_, rfl, ?_, ?_⟩
    · intro _
      simp
    · intro hcontr
      exact absurd hc hcontr
  · have hcmp : fcmp (localContent (getDir st.fs loc) (fileName f))
        (getmtimeD (getDir st.fs loc) (fileName f)) b f.modified_at = false := by
      rcases Bool.eq_false_or_eq_true (fcmp (localContent (getDir st.fs loc) (fileName f))
        (getmtimeD (getDir st.fs loc) (fileName f)) b f.modified_at) with h' | h'
      · exact absurd ((fcmp_eq_of_mtime_ne _ _ _ _ hm).mp h') hc
      · exact h'
    rw [heq]
    simp only [tempOf, hcmp, Bool.not_false, if_true]
    refine ⟨_, rfl, ?_, ?_⟩
    · intro hcontr
      exact absurd hcontr hc
    · intro _
      refine ⟨by simp, by simp, by simp, by simp, ?_, ?_⟩
      · show localContent (getDir (setDir st.fs loc _) loc) (fileName f) = b
        rw [getDir_setDir_self]
        exact localContent_setFile_self _ _ _ _
      · show getmtimeD (getDir (setDir st.fs loc _) loc) (fileName f) = f.modified_at
        rw [getDir_setDir_self]
        exact getmtimeD_setFile_self _ _ _ _

/-- C1 witness: local file with bytes B1 and mtime 1 against remote modified_at 5;
    the fetch returns B1, so the entry is skipped and the tree is unchanged. -/
theorem c1_stale_byte_exact_update_witness :
    ∃ st1, parse_file wCtx
      { fs := [(("C"), [{ name := "a.txt", isDir := false, content := "B1", mtime := 1 }])],
        file_set := [], downloaded := 0, updated := 0, skipped := 0, errors := 0, log := [] }
      { folder_id := 1, url := "u1", display_name := "a.txt", modified_at := 5 } = Except.ok st1 ∧
      (localContent (getDir [(("C"), [{ name := "a.txt", isDir := false, content := "B1", mtime := 1 }])] ("C"))
          (fileName { folder_id := 1, url := "u1", display_name := "a.txt", modified_at := 5 }) = "B1" →
        st1.skipped = 0 + 1 ∧ st1.updated = 0 ∧ st1.downloaded = 0 ∧ st1.errors = 0 ∧
        st1.fs = [(("C"), [{ name := "a.txt", isDir := false, content := "B1", mtime := 1 }])]) ∧
      (localContent (getDir [(("C"), [{ name := "a.txt", isDir := false, content := "B1", mtime := 1 }])] ("C"))
          (fileName { folder_id := 1, url := "u1", display_name := "a.txt", modified_at := 5 }) ≠ "B1" →
        st1.updated = 0 + 1 ∧ st1.skipped = 0 ∧ st1.downloaded = 0 ∧ st1.errors = 0 ∧
        localContent (getDir st1.fs ("C"))
          (fileName { folder_id := 1, url := "u1", display_name := "a.txt", modified_at := 5 }) = "B1" ∧
        getmtimeD (getDir st1.fs ("C"))
          (fileName { folder_id := 1, url := "u1", display_name := "a.txt", modified_at := 5 }) = 5) :=
  c1_stale_byte_exact_update wCtx
    { fs := [(("C"), [{ name := "a.txt", isDir := false, content := "B1", mtime := 1 }])],
      file_set := [], downloaded := 0, updated := 0, skipped := 0, errors := 0, log := [] }
    { folder_id := 1, url := "u1", display_name := "a.txt", modified_at := 5 }
    ("C") ("B1") (by decide) (by decide) (by decide) (by decide) (by decide) (by decide) (by decide)

/-- C8 amended witness: a plain fetch stamps modified_at 5; a URL: stub and a
    SubHeader placeholder are stamped with the wall clock 7. -/
theorem c8_mtime_amended_witness :
    (getmtimeD (applyDl wCtx.now []
      ("a.txt") (download wCtx { folder_id := 1, url := "u1", display_name := "a.txt", modified_at := 5 })) ("a.txt") = 5 ∧
     localContent (applyDl wCtx.now []
      ("a.txt") (download wCtx { folder_id := 1, url := "u1", display_name := "a.txt", modified_at := 5 })) ("a.txt") = "B1") ∧
    (getmtimeD (applyDl wCtx.now []
      ("x.url") (download wCtx { folder_id := 1, url := "URL:h", display_name := "x.url", modified_at := 3 })) ("x.url") = 7) ∧
    (getmtimeD (applyDl wCtx.now []
      ("s") (download wCtx { folder_id := 1, url := "SubHeader:s", display_name := "s", modified_at := 3 })) ("s") = 7) := by
  refine ⟨?_, ?_, ?_⟩
  · exact (c8_mtime_amended wCtx { folder_id := 1, url := "u1", display_name := "a.txt", modified_at := 5 }
      [] ("a.txt") ("B1")).1 ⟨by decide, by decide, by decide, by decide⟩
  · exact ((c8_mtime_amended wCtx { folder_id := 1, url := "URL:h", display_name := "x.url", modified_at := 3 }
      [] ("x.url") ("")).2.1 ⟨by decide, by decide⟩).1
  · exact (c8_mtime_amended wCtx { folder_id := 1, url := "SubHeader:s", display_name := "s", modified_at := 3 }
      [] ("s") ("")).2.2 ⟨by decide, by decide, by decide, by simp⟩

theorem findFile_eq_none_of_names (d : List FSEntry) (n : String)
    (h : ∀ e ∈ d, e.name ≠ n) : findFile d n = none := by
  unfold findFile
  rw [List.find?_eq_none]
  intro e he
  simp [h e he]

theorem add_before_ext_list_no_dot (nm e : List Char) (h : ¬ ('.' ∈ nm)) :
    add_before_ext_list nm e = nm ++ e := by
  induction nm with
  | nil => rfl
  | cons c cs ih =>
    rw [List.mem_cons, not_or] at h
    unfold add_before_ext_list
    rw [if_neg (fun hc => h.1 hc.1.symm)]
    rw [ih h.2]
    exact rfl

theorem add_before_ext_list_last_dot (nm1 nm2 e : List Char) (h : ¬ ('.' ∈ nm2)) :
    add_before_ext_list (nm1 ++ '.' :: nm2) e = nm1 ++ e ++ '.' :: nm2 := by
  induction nm1 with
  | nil =>
    unfold add_before_ext_list
    simp only [List.nil_append]
    rw [if_pos (by simp [h])]
  | cons c cs ih =>
    simp only [List.cons_append]
    unfold add_before_ext_list
    rw [if_neg]
    · rw [ih]
    · rintro ⟨_, hmem⟩
      exact hmem (by simp)

/-- C6: a file entry whose resolved path has no exactly-named entry in its
    directory while a differently-cased name is present there takes the
    case-collision branch: a new name is synthesized with add_before_ext, which
    inserts the suffix, a space, c and the localized modified_at timestamp,
    immediately before the last dot of the name (at the end when the name has no
    dot), the body is downloaded to that synthesized path (given a plain url whose
    fetch succeeds), the path joins ExpectedPathSet, and the entry counts as
    downloaded. -/
theorem c6_case_collision_synthesized_path (ctx : Ctx) (st : St) (f : FileRec) (loc : String)
    (b : Content)
    (hloc : lookupFolder ctx.folder_dict f.folder_id = some loc)
    (hne : ∀ e ∈ getDir st.fs loc, e.name ≠ fileName f)
    (hcase : ∃ e ∈ getDir st.fs loc, pyLower e.name = pyLower (fileName f))
    (h0 : f.url ≠ "") (h1 : startsW f.url ("URL:") = false)
    (h2 : startsW f.url ("SubHeader:") = false)
    (hnet : ctx.net f.url = some b) :
    ∃ st1, parse_file ctx st f = Except.ok st1 ∧
      st1.downloaded = st.downloaded + 1 ∧ st1.updated = st.updated ∧
      st1.skipped = st.skipped ∧ st1.errors = st.errors ∧
      localContent (getDir st1.fs loc)
        (add_before_ext (fileName f) ((" c") ++ ctx.fmtTime f.modified_at)) = b ∧
      getmtimeD (getDir st1.fs loc)
        (add_before_ext (fileName f) ((" c") ++ ctx.fmtTime f.modified_at)) = f.modified_at ∧
      joinP loc (add_before_ext (fileName f) ((" c") ++ ctx.fmtTime f.modified_at)) ∈ st1.file_set ∧
      (∀ nm sfx : List Char, ¬ ('.' ∈ nm) → add_before_ext_list nm sfx = nm ++ sfx) ∧
      (∀ nm1 nm2 sfx : List Char, ¬ ('.' ∈ nm2) →
        add_before_ext_list (nm1 ++ '.' :: nm2) sfx = nm1 ++ sfx ++ '.' :: nm2) := by
  have hfile : isfileB (getDir st.fs loc) (fileName f) = false := by
    unfold isfileB
    rw [findFile_eq_none_of_names _ _ hne]
    rfl
  rcases hcase with ⟨e, he, hml⟩
  have hcol : collisionCase loc (getDir st.fs loc) (fileName f) = true :=
    collisionCase_true_of loc _ _ hfile e he hml
  have hdl : download ctx f = DlRes.wrote b f.modified_at :=
    download_regular ctx f b h0 h1 h2 hnet
  rw [parse_file_b1_ok ctx st f loc (DlRes.wrote b f.modified_at) hloc hcol hdl (by intro h; cases h)]
  refine ⟨_, rfl, by simp, by simp, by simp, by simp, ?_, ?_, ?_,
    add_before_ext_list_no_dot, add_before_ext_list_last_dot⟩
  · show localContent (getDir (setDir st.fs loc _) loc) _ = b
    rw [getDir_setDir_self]
    exact localContent_setFile_self _ _ _ _
  · show getmtimeD (getDir (setDir st.fs loc _) loc) _ = f.modified_at
    rw [getDir_setDir_self]
    exact getmtimeD_setFile_self _ _ _ _
  · exact mem_addSet_self _ _

/-- C6 witness: directory C holds only A.txt while the entry resolves to a.txt;
    the body is fetched to a cT1.txt, which joins the expected-path set. -/
theorem c6_case_collision_synthesized_path_witness :
    ∃ st1, parse_file wCtx
      { fs := [(("C"), [{ name := "A.txt", isDir := false, content := "Z", mtime := 1 }])],
        file_set := [], downloaded := 0, updated := 0, skipped := 0, errors := 0, log := [] }
      { folder_id := 1, url := "u1", display_name := "a.txt", modified_at := 5 } = Except.ok st1 ∧
      st1.downloaded = 0 + 1 ∧ st1.updated = 0 ∧ st1.skipped = 0 ∧ st1.errors = 0 ∧
      localContent (getDir st1.fs ("C"))
        (add_before_ext (fileName { folder_id := 1, url := "u1", display_name := "a.txt", modified_at := 5 })
          ((" c") ++ wCtx.fmtTime 5)) = "B1" ∧
      getmtimeD (getDir st1.fs ("C"))
        (add_before_ext (fileName { folder_id := 1, url := "u1", display_name := "a.txt", modified_at := 5 })
          ((" c") ++ wCtx.fmtTime 5)) = 5 ∧
      joinP ("C")
        (add_before_ext (fileName { folder_id := 1, url := "u1", display_name := "a.txt", modified_at := 5 })
          ((" c") ++ wCtx.fmtTime 5)) ∈ st1.file_set ∧
      (∀ nm sfx : List Char, ¬ ('.' ∈ nm) → add_before_ext_list nm sfx = nm ++ sfx) ∧
      (∀ nm1 nm2 sfx : List Char, ¬ ('.' ∈ nm2) →
        add_before_ext_list (nm1 ++ '.' :: nm2) sfx = nm1 ++ sfx ++ '.' :: nm2) :=
  c6_case_collision_synthesized_path wCtx
    { fs := [(("C"), [{ name := "A.txt", isDir := false, content := "Z", mtime := 1 }])],
      file_set := [], downloaded := 0, updated := 0, skipped := 0, errors := 0, log := [] }
    { folder_id := 1, url := "u1", display_name := "a.txt", modified_at := 5 }
    ("C") ("B1") (by decide)
    (by decide)
    ⟨{ name := "A.txt", isDir := false, content := "Z", mtime := 1 }, by simp [getDir], by decide⟩
    (by decide) (by decide) (by decide) (by decide)

/-- C7: when the content fetch of an entry with a plain url returns a non-success
    status (and the entry is not in the skip branch), _parse_file counts one error,
    logs the display name, leaves the counters, the expected-path set and the local
    tree otherwise untouched, and returns normally, so the traversal of the
    remaining entries continues. -/
theorem c7_download_failure_recovery (ctx : Ctx) (st : St) (f : FileRec) (loc : String)
    (hloc : lookupFolder ctx.folder_dict f.folder_id = some loc)
    (h0 : f.url ≠ "") (h1 : startsW f.url ("URL:") = false)
    (h2 : startsW f.url ("SubHeader:") = false)
    (hnet : ctx.net f.url = none)
    (hnb : isfileB (getDir st.fs loc) (fileName f) = false ∨
           getmtimeD (getDir st.fs loc) (fileName f) < f.modified_at) :
    ∃ st1, parse_file ctx st f = Except.ok st1 ∧
      st1.errors = st.errors + 1 ∧ st1.downloaded = st.downloaded ∧
      st1.updated = st.updated ∧ st1.skipped = st.skipped ∧
      st1.file_set = st.file_set ∧ st1.fs = st.fs ∧
      st1.log = st.log ++ [LogMsg.connFail f.display_name] ∧
      (∀ rest, runCatalog ctx st (f :: rest) = runCatalog ctx st1 rest) := by
  have hdl : download ctx f = DlRes.connError := download_fail ctx f h0 h1 h2 hnet
  have heq : parse_file ctx st f = Except.ok
      { st with errors := st.errors + 1, log := st.log ++ [LogMsg.connFail f.display_name] } := by
    by_cases hcol : collisionCase loc (getDir st.fs loc) (fileName f) = true
    · exact parse_file_b1_err ctx st f loc hloc hcol hdl
    · have hcol' : collisionCase loc (getDir st.fs loc) (fileName f) = false :=
        Bool.eq_false_iff.mpr hcol
      by_cases hfile : isfileB (getDir st.fs loc) (fileName f) = true
      · have hmt : getmtimeD (getDir st.fs loc) (fileName f) < f.modified_at := by
          rcases hnb with h | h
          · rw [hfile] at h
            cases h
          · exact h
        have hstale : staleCase (getDir st.fs loc) (fileName f) f.modified_at = true := by
          unfold staleCase
          simp [hfile, hmt]
        exact parse_file_b2_err ctx st f loc hloc hcol' hstale hdl
      · have hfile' : isfileB (getDir st.fs loc) (fileName f) = false :=
          Bool.eq_false_iff.mpr hfile
        have hstale : staleCase (getDir st.fs loc) (fileName f) f.modified_at = false :=
          staleCase_false_of_nofile _ _ _ hfile'
        have h3 : (!(isfileB (getDir st.fs loc) (fileName f)) && !(f.url == "")) = true := by
          have : (f.url == "") = false := by simpa using h0
          simp [hfile', this]
        exact parse_file_b3_err ctx st f loc hloc hcol' hstale h3 hdl
  refine ⟨_, heq, by simp, by simp, by simp, by simp, by simp, by simp, by simp, ?_⟩
  intro rest
  simp [runCatalog, heq]

/-- C7 witness: url u9 fails against wCtx while directory C is empty; the run
    records one error, logs b.txt, adds nothing to the expected-path set, and the
    traversal continues with the remaining entries. -/
theorem c7_download_failure_recovery_witness :
    ∃ st1, parse_file wCtx wSt0
      { folder_id := 1, url := "u9", display_name := "b.txt", modified_at := 5 } = Except.ok st1 ∧
      st1.errors = 0 + 1 ∧ st1.downloaded = 0 ∧ st1.updated = 0 ∧ st1.skipped = 0 ∧
      st1.file_set = wSt0.file_set ∧ st1.fs = wSt0.fs ∧
      st1.log = wSt0.log ++ [LogMsg.connFail ("b.txt")] ∧
      (∀ rest, runCatalog wCtx wSt0
        ({ folder_id := 1, url := "u9", display_name := "b.txt", modified_at := 5 } :: rest)
          = runCatalog wCtx st1 rest) :=
  c7_download_failure_recovery wCtx wSt0
    { folder_id := 1, url := "u9", display_name := "b.txt", modified_at := 5 }
    ("C") (by decide) (by decide) (by decide) (by decide) (by decide) (Or.inl (by decide))

/-- C2 counterexample: an entry with an empty download url, no local file and no
    case-insensitive match is counted skipped, not errors, no warning is emitted,
    and its resolved path IS added to the expected-path set — against all three
    parts of the claim. -/
theorem c2_counterexample :
    (parse_file wCtx wSt0
      { folder_id := 1, url := "", display_name := "a.txt", modified_at := 5 }).toOption.map
        (fun st => (st.errors, st.skipped, st.file_set, st.log))
      = some (0, 1, [("C/a.txt")], []) := by
  decide

/-- C2 amended: an entry with an empty download url never touches the errors
    counter and its resolved path (the synthesized one in the collision branch)
    always joins ExpectedPathSet; the warning is emitted exactly when download is
    invoked, namely in the collision branch and in the stale-update branch, and in
    the remaining branches the entry is silently counted skipped. -/
theorem c2_empty_url_amended (ctx : Ctx) (st : St) (f : FileRec) (loc : String)
    (hloc : lookupFolder ctx.folder_dict f.folder_id = some loc)
    (hurl : f.url = "") :
    ∃ st1, parse_file ctx st f = Except.ok st1 ∧
      st1.errors = st.errors ∧
      joinP loc (if collisionCase loc (getDir st.fs loc) (fileName f)
                 then add_before_ext (fileName f) ((" c") ++ ctx.fmtTime f.modified_at)
                 else fileName f) ∈ st1.file_set ∧
      st1.log = (if collisionCase loc (getDir st.fs loc) (fileName f)
                    || staleCase (getDir st.fs loc) (fileName f) f.modified_at
                 then st.log ++ [LogMsg.warnIgnored f.display_name]
                 else st.log) := by
  have hdl : download ctx f = DlRes.noWrite := download_empty ctx f hurl
  by_cases hcol : collisionCase loc (getDir st.fs loc) (fileName f) = true
  · rw [parse_file_b1_ok ctx st f loc DlRes.noWrite hloc hcol hdl (by intro h; cases h)]
    refine ⟨_, rfl, by simp, ?_, ?_⟩
    · simp only [hcol, if_true]
      exact mem_addSet_self _ _
    · simp [hcol]
  · have hcol' : collisionCase loc (getDir st.fs loc) (fileName f) = false :=
      Bool.eq_false_iff.mpr hcol
    by_cases hstale : staleCase (getDir st.fs loc) (fileName f) f.modified_at = true
    · rw [parse_file_b2_ok ctx st f loc DlRes.noWrite hloc hcol' hstale hdl (by intro h; cases h)]
      by_cases hq : fcmp (localContent (getDir st.fs loc) (fileName f))
          (getmtimeD (getDir st.fs loc) (fileName f))
          (tempOf ctx.now DlRes.noWrite).fst (tempOf ctx.now DlRes.noWrite).snd = true
      · simp only [hq, Bool.not_true, Bool.false_eq_true, if_false]
        refine ⟨_, rfl, by simp, ?_, by simp [hcol', hstale]⟩
        simp only [hcol', Bool.false_eq_true, if_false]
        exact mem_addSet_self _ _
      · simp only [Bool.eq_false_iff.mpr hq, Bool.not_false, if_true]
        refine ⟨_, rfl, by simp, ?_, by simp [hcol', hstale]⟩
        simp only [hcol', Bool.false_eq_true, if_false]
        exact mem_addSet_self _ _
    · have hstale' : staleCase (getDir st.fs loc) (fileName f) f.modified_at = false :=
        Bool.eq_false_iff.mpr hstale
      have h3 : (!(isfileB (getDir st.fs loc) (fileName f)) && !(f.url == "")) = false := by
        have : (f.url == "") = true := by simpa using hurl
        simp [this]
      rw [parse_file_b4 ctx st f loc hloc hcol' hstale' h3]
      refine ⟨_, rfl, by simp, ?_, by simp [hcol', hstale']⟩
      simp only [hcol', Bool.false_eq_true, if_false]
      exact mem_addSet_self _ _

/-- C2 amended witness: the empty-url entry of the counterexample, through the
    amended statement: errors unchanged, C/a.txt joins the set, no warning. -/
theorem c2_empty_url_amended_witness :
    ∃ st1, parse_file wCtx wSt0
      { folder_id := 1, url := "", display_name := "a.txt", modified_at := 5 } = Except.ok st1 ∧
      st1.errors = wSt0.errors ∧
      joinP ("C") (if collisionCase ("C") (getDir wSt0.fs ("C"))
                     (fileName { folder_id := 1, url := "", display_name := "a.txt", modified_at := 5 })
                   then add_before_ext
                     (fileName { folder_id := 1, url := "", display_name := "a.txt", modified_at := 5 })
                     ((" c") ++ wCtx.fmtTime 5)
                   else fileName { folder_id := 1, url := "", display_name := "a.txt", modified_at := 5 })
        ∈ st1.file_set ∧
      st1.log = (if collisionCase ("C") (getDir wSt0.fs ("C"))
                      (fileName { folder_id := 1, url := "", display_name := "a.txt", modified_at := 5 })
                    || staleCase (getDir wSt0.fs ("C"))
                      (fileName { folder_id := 1, url := "", display_name := "a.txt", modified_at := 5 }) 5
                 then wSt0.log ++ [LogMsg.warnIgnored ("a.txt")]
                 else wSt0.log) :=
  c2_empty_url_amended wCtx wSt0
    { folder_id := 1, url := "", display_name := "a.txt", modified_at := 5 }
    ("C") (by decide) rfl

theorem parse_file_one_counter (ctx : Ctx) (st : St) (f : FileRec) (loc : String)
    (hloc : lookupFolder ctx.folder_dict f.folder_id = some loc) :
    ∃ st1, parse_file ctx st f = Except.ok st1 ∧
      (stCounts st1 = (st.downloaded + 1, st.updated, st.skipped, st.errors) ∨
       stCounts st1 = (st.downloaded, st.updated + 1, st.skipped, st.errors) ∨
       stCounts st1 = (st.downloaded, st.updated, st.skipped + 1, st.errors) ∨
       stCounts st1 = (st.downloaded, st.updated, st.skipped, st.errors + 1)) := by
  by_cases hcol : collisionCase loc (getDir st.fs loc) (fileName f) = true
  · cases hdl : download ctx f with
    | connError =>
      rw [parse_file_b1_err ctx st f loc hloc hcol hdl]
      exact ⟨_, rfl, Or.inr (Or.inr (Or.inr (by simp [stCounts])))⟩
    | noWrite =>
      rw [parse_file_b1_ok ctx st f loc DlRes.noWrite hloc hcol hdl (by intro h; cases h)]
      exact ⟨_, rfl, Or.inl (by simp [stCounts])⟩
    | wrote c m =>
      rw [parse_file_b1_ok ctx st f loc (DlRes.wrote c m) hloc hcol hdl (by intro h; cases h)]
      exact ⟨_, rfl, Or.inl (by simp [stCounts])⟩
    | touched =>
      rw [parse_file_b1_ok ctx st f loc DlRes.touched hloc hcol hdl (by intro h; cases h)]
      exact ⟨_, rfl, Or.inl (by simp [stCounts])⟩
  · have hcol' : collisionCase loc (getDir st.fs loc) (fileName f) = false :=
      Bool.eq_false_iff.mpr hcol
    by_cases hstale : staleCase (getDir st.fs loc) (fileName f) f.modified_at = true
    · cases hdl : download ctx f with
      | connError =>
        rw [parse_file_b2_err ctx st f loc hloc hcol' hstale hdl]
        exact ⟨_, rfl, Or.inr (Or.inr (Or.inr (by simp [stCounts])))⟩
      | noWrite =>
        rw [parse_file_b2_ok ctx st f loc DlRes.noWrite hloc hcol' hstale hdl (by intro h; cases h)]
        by_cases hq : fcmp (localContent (getDir st.fs loc) (fileName f))
            (getmtimeD (getDir st.fs loc) (fileName f))
            (tempOf ctx.now DlRes.noWrite).fst (tempOf ctx.now DlRes.noWrite).snd = true
        · simp only [hq, Bool.not_true, Bool.false_eq_true, if_false]
          exact ⟨_, rfl, Or.inr (Or.inr (Or.inl (by simp [stCounts])))⟩
        · simp only [Bool.eq_false_iff.mpr hq, Bool.not_false, if_true]
          exact ⟨_, rfl, Or.inr (Or.inl (by simp [stCounts]))⟩
      | wrote c m =>
        rw [parse_file_b2_ok ctx st f loc (DlRes.wrote c m) hloc hcol' hstale hdl (by intro h; cases h)]
        by_cases hq : fcmp (localContent (getDir st.fs loc) (fileName f))
            (getmtimeD (getDir st.fs loc) (fileName f))
            (tempOf ctx.now (DlRes.wrote c m)).fst (tempOf ctx.now (DlRes.wrote c m)).snd = true
        · simp only [hq, Bool.not_true, Bool.false_eq_true, if_false]
          exact ⟨_, rfl, Or.inr (Or.inr (Or.inl (by simp [stCounts])))⟩
        · simp only [Bool.eq_false_iff.mpr hq, Bool.not_false, if_true]
          exact ⟨_, rfl, Or.inr (Or.inl (by simp [stCounts]))⟩
      | touched =>
        rw [parse_file_b2_ok ctx st f loc DlRes.touched hloc hcol' hstale hdl (by intro h; cases h)]
        by_cases hq : fcmp (localContent (getDir st.fs loc) (fileName f))
            (getmtimeD (getDir st.fs loc) (fileName f))
            (tempOf ctx.now DlRes.touched).fst (tempOf ctx.now DlRes.touched).snd = true
        · simp only [hq, Bool.not_true, Bool.false_eq_true, if_false]
          exact ⟨_, rfl, Or.inr (Or.inr (Or.inl (by simp [stCounts])))⟩
        · simp only [Bool.eq_false_iff.mpr hq, Bool.not_false, if_true]
          exact ⟨_, rfl, Or.inr (Or.inl (by simp [stCounts]))⟩
    · have hstale' : staleCase (getDir st.fs loc) (fileName f) f.modified_at = false :=
        Bool.eq_false_iff.mpr hstale
      by_cases h3 : (!(isfileB (getDir st.fs loc) (fileName f)) && !(f.url == "")) = true
      · cases hdl : download ctx f with
        | connError =>
          rw [parse_file_b3_err ctx st f loc hloc hcol' hstale' h3 hdl]
          exact ⟨_, rfl, Or.inr (Or.inr (Or.inr (by simp [stCounts])))⟩
        | noWrite =>
          rw [parse_file_b3_ok ctx st f loc DlRes.noWrite hloc hcol' hstale' h3 hdl (by intro h; cases h)]
          exact ⟨_, rfl, Or.inl (by simp [stCounts])⟩
        | wrote c m =>
          rw [parse_file_b3_ok ctx st f loc (DlRes.wrote c m) hloc hcol' hstale' h3 hdl (by intro h; cases h)]
          exact ⟨_, rfl, Or.inl (by simp [stCounts])⟩
        | touched =>
          rw [parse_file_b3_ok ctx st f loc DlRes.touched hloc hcol' hstale' h3 hdl (by intro h; cases h)]
          exact ⟨_, rfl, Or.inl (by simp [stCounts])⟩
      · have h3' : (!(isfileB (getDir st.fs loc) (fileName f)) && !(f.url == "")) = false :=
          Bool.eq_false_iff.mpr h3
        rw [parse_file_b4 ctx st f loc hloc hcol' hstale' h3']
        exact ⟨_, rfl, Or.inr (Or.inr (Or.inl (by simp [stCounts])))⟩

/-- C9: every _parse_file invocation whose folder_id resolves through folder_dict
    returns normally and bumps exactly one of the four counters by one, leaving
    the other three unchanged; consequently a traversal of n such entries raises
    the counter sum by exactly n. -/
theorem c9_exactly_one_counter (ctx : Ctx) :
    (∀ (st : St) (f : FileRec) (loc : String),
      lookupFolder ctx.folder_dict f.folder_id = some loc →
      ∃ st1, parse_file ctx st f = Except.ok st1 ∧
        (stCounts st1 = (st.downloaded + 1, st.updated, st.skipped, st.errors) ∨
         stCounts st1 = (st.downloaded, st.updated + 1, st.skipped, st.errors) ∨
         stCounts st1 = (st.downloaded, st.updated, st.skipped + 1, st.errors) ∨
         stCounts st1 = (st.downloaded, st.updated, st.skipped, st.errors + 1))) ∧
    (∀ (L : List FileRec) (st : St),
      (∀ f ∈ L, (lookupFolder ctx.folder_dict f.folder_id).isSome = true) →
      ∃ st1, runCatalog ctx st L = Except.ok st1 ∧
        st1.downloaded + st1.updated + st1.skipped + st1.errors
          = st.downloaded + st.updated + st.skipped + st.errors + L.length) := by
  refine ⟨fun st f loc hloc => parse_file_one_counter ctx st f loc hloc, ?_⟩
  intro L
  induction L with
  | nil =>
    intro st _
    exact ⟨st, rfl, by simp⟩
  | cons f rest ih =>
    intro st hall
    rcases Option.isSome_iff_exists.mp (hall f (by simp)) with ⟨loc, hloc⟩
    rcases parse_file_one_counter ctx st f loc hloc with ⟨st', heq, hdisj⟩
    rcases ih st' (fun g hg => hall g (List.mem_cons_of_mem _ hg)) with ⟨st1, hrun, hsum⟩
    refine ⟨st1, ?_, ?_⟩
    · simp [runCatalog, heq, hrun]
    · have hsum' : st'.downloaded + st'.updated + st'.skipped + st'.errors
          = st.downloaded + st.updated + st.skipped + st.errors + 1 := by
        rcases hdisj with h | h | h | h <;>
          (simp only [stCounts, Prod.mk.injEq] at h; omega)
      simp only [List.length_cons]
      omega

/-- C9 witness: one entry with a resolvable folder id on the empty state, and a
    two-entry catalog whose counter sum ends at 2. -/
theorem c9_exactly_one_counter_witness :
    (∃ st1, parse_file wCtx wSt0
        { folder_id := 1, url := "u1", display_name := "a.txt", modified_at := 5 } = Except.ok st1 ∧
      (stCounts st1 = (0 + 1, 0, 0, 0) ∨ stCounts st1 = (0, 0 + 1, 0, 0) ∨
       stCounts st1 = (0, 0, 0 + 1, 0) ∨ stCounts st1 = (0, 0, 0, 0 + 1))) ∧
    (∃ st1, runCatalog wCtx wSt0
        [{ folder_id := 1, url := "u1", display_name := "a.txt", modified_at := 5 },
         { folder_id := 1, url := "u9", display_name := "b.txt", modified_at := 5 }] = Except.ok st1 ∧
      st1.downloaded + st1.updated + st1.skipped + st1.errors = 0 + 0 + 0 + 0 + 2) := by
  constructor
  · exact (c9_exactly_one_counter wCtx).1 wSt0
      { folder_id := 1, url := "u1", display_name := "a.txt", modified_at := 5 } ("C") (by decide)
  · refine (c9_exactly_one_counter wCtx).2
      [{ folder_id := 1, url := "u1", display_name := "a.txt", modified_at := 5 },
       { folder_id := 1, url := "u9", display_name := "b.txt", modified_at := 5 }] wSt0 ?_
    intro f hf
    simp only [List.mem_cons, List.not_mem_nil, or_false] at hf
    rcases hf with rfl | rfl
    · decide
    · decide

/-- C5: the page loop delivers every item of a finite chain of pages exactly once,
    in array order page after page, following the next-link until a page carries
    none; and a non-success status on any page fetch makes the whole traversal
    fail instead of returning a partial item list. -/
theorem isChainTo_nil {α : Type} (net : String → Option (Page α)) (u : String) :
    isChainTo net u ([] : List (Page α)) u := rfl

theorem isChainTo_cons {α : Type} (net : String → Option (Page α)) (u v : String)
    (p : Page α) (ps : List (Page α)) (hu : u ≠ "") (hnet : net u = some p)
    (h : isChainTo net p.next ps v) : isChainTo net u (p :: ps) v :=
  show u ≠ "" ∧ net u = some p ∧ isChainTo net p.next ps v from ⟨hu, hnet, h⟩

theorem c5_pagination_delivery {α : Type} (net : String → Option (Page α)) :
    (∀ (ps : List (Page α)) (u : String) (fuel : Nat),
      isChainTo net u ps ("") → ps.length ≤ fuel →
      do_all_pages net fuel u = PgRes.ok ((ps.map Page.items).flatten)) ∧
    (∀ (ps : List (Page α)) (u v : String) (fuel : Nat),
      isChainTo net u ps v → v ≠ "" → net v = none → ps.length < fuel →
      do_all_pages net fuel u = PgRes.fail) := by
  constructor
  · intro ps
    induction ps with
    | nil =>
      intro u fuel hchain _
      have hu : u = "" := hchain
      subst hu
      cases fuel <;> simp [do_all_pages]
    | cons p ps ih =>
      intro u fuel hchain hlen
      rcases hchain with ⟨hu, hnet, hchain⟩
      simp only [List.length_cons] at hlen
      cases fuel with
      | zero => omega
      | succ fuel =>
        have hrec := ih p.next fuel hchain (by omega)
        simp only [do_all_pages, if_neg hu, hnet, hrec, List.map_cons, List.flatten_cons]
  · intro ps
    induction ps with
    | nil =>
      intro u v fuel hchain hv hnet hlen
      have hu : u = v := hchain
      subst hu
      cases fuel with
      | zero => simp at hlen
      | succ fuel =>
        rw [do_all_pages, if_neg hv, hnet]
    | cons p ps ih =>
      intro u v fuel hchain hv hnet hlen
      rcases hchain with ⟨hu, hnetu, hchain⟩
      simp only [List.length_cons] at hlen
      cases fuel with
      | zero => omega
      | succ fuel =>
        have hrec := ih p.next v fuel hchain hv hnet (by omega)
        simp only [do_all_pages, if_neg hu, hnetu, hrec]

/-- C5 witness: three pages of two items each are delivered as six items in
    order, and a chain whose second fetch fails yields the failure result. -/
theorem c5_pagination_delivery_witness :
    do_all_pages w5net 3 ("p1") = PgRes.ok [1, 2, 3, 4, 5, 6] ∧
    do_all_pages w5netF 2 ("p1") = PgRes.fail := by
  constructor
  · exact (c5_pagination_delivery w5net).1
      [{ items := [1, 2], next := "p2" }, { items := [3, 4], next := "p3" },
       { items := [5, 6], next := "" }] ("p1") 3
      (isChainTo_cons w5net ("p1") ("") _ _ (by decide) (by decide)
        (isChainTo_cons w5net ("p2") ("") _ _ (by decide) (by decide)
          (isChainTo_cons w5net ("p3") ("") _ _ (by decide) (by decide)
            (isChainTo_nil w5net ("")))))
      (by decide)
  · exact (c5_pagination_delivery w5netF).2
      [{ items := [1, 2], next := "pX" }] ("p1") ("pX") 2
      (isChainTo_cons w5netF ("p1") ("pX") _ _ (by decide) (by decide)
        (isChainTo_nil w5netF ("pX")))
      (by decide) (by decide) (by decide)

theorem distinct2_symm (ctx : Ctx) (f g : FileRec) (h : Distinct2 ctx f g) :
    Distinct2 ctx g f :=
  h.imp Ne.symm Ne.symm

theorem goodF_of_findFile_eq (ctx : Ctx) (fs fs' : List (String × List FSEntry)) (g : FileRec)
    (h : findFile (getDir fs' (locOf ctx g)) (fileName g)
       = findFile (getDir fs (locOf ctx g)) (fileName g)) :
    GoodF ctx fs g → GoodF ctx fs' g := by
  unfold GoodF isfileB getmtimeD localContent
  rw [h]
  exact id

theorem dirOK_of_getDir_eq (ctx : Ctx) (fs fs' : List (String × List FSEntry)) (g : FileRec)
    (h : getDir fs' (locOf ctx g) = getDir fs (locOf ctx g)) :
    DirOK ctx fs g → DirOK ctx fs' g := by
  unfold DirOK
  rw [h]
  exact id

theorem pre_loc (ctx : Ctx) (f : FileRec) (hp : Pre ctx f) :
    lookupFolder ctx.folder_dict f.folder_id = some (locOf ctx f) := by
  rcases Option.isSome_iff_exists.mp hp.2.2.2.2 with ⟨loc, hloc⟩
  rw [hloc]
  unfold locOf
  rw [hloc]
  rfl

theorem pre_net (ctx : Ctx) (f : FileRec) (hp : Pre ctx f) :
    ctx.net f.url = some (bOf ctx f) := by
  rcases Option.isSome_iff_exists.mp hp.2.2.2.1 with ⟨b, hb⟩
  rw [hb]
  unfold bOf
  rw [hb]
  rfl

theorem run1_entry (ctx : Ctx) (st : St) (f : FileRec)
    (hp : Pre ctx f) (hd : DirOK ctx st.fs f) :
    ∃ st1, parse_file ctx st f = Except.ok st1 ∧
      GoodF ctx st1.fs f ∧
      (∀ p, p ≠ locOf ctx f → getDir st1.fs p = getDir st.fs p) ∧
      (∀ e ∈ getDir st1.fs (locOf ctx f), e ∈ getDir st.fs (locOf ctx f) ∨
          (e.name = fileName f ∧ e.isDir = false)) ∧
      (∀ n, n ≠ fileName f →
        findFile (getDir st1.fs (locOf ctx f)) n = findFile (getDir st.fs (locOf ctx f)) n) := by
  have hloc : lookupFolder ctx.folder_dict f.folder_id = some (locOf ctx f) := pre_loc ctx f hp
  have hnet : ctx.net f.url = some (bOf ctx f) := pre_net ctx f hp
  have hdl : download ctx f = DlRes.wrote (bOf ctx f) f.modified_at :=
    download_regular ctx f (bOf ctx f) hp.1 hp.2.1 hp.2.2.1 hnet
  have hcol : collisionCase (locOf ctx f) (getDir st.fs (locOf ctx f)) (fileName f) = false :=
    collisionCase_false_of_exact _ _ _ hd
  by_cases hfile : isfileB (getDir st.fs (locOf ctx f)) (fileName f) = true
  · by_cases hlt : getmtimeD (getDir st.fs (locOf ctx f)) (fileName f) < f.modified_at
    · have hstale : staleCase (getDir st.fs (locOf ctx f)) (fileName f) f.modified_at = true := by
        unfold staleCase
        simp [hfile, hlt]
      have heq := parse_file_b2_ok ctx st f (locOf ctx f) (DlRes.wrote (bOf ctx f) f.modified_at)
        hloc hcol hstale hdl (by intro h; cases h)
      by_cases hc : localContent (getDir st.fs (locOf ctx f)) (fileName f) = bOf ctx f
      · have hcmp : fcmp (localContent (getDir st.fs (locOf ctx f)) (fileName f))
            (getmtimeD (getDir st.fs (locOf ctx f)) (fileName f)) (bOf ctx f) f.modified_at = true :=
          (fcmp_eq_of_mtime_ne _ _ _ _ (ne_of_lt hlt)).mpr hc
        rw [heq]
        simp only [tempOf, hcmp, Bool.not_true, Bool.false_eq_true, if_false]
        refine ⟨_, rfl, ⟨hfile, Or.inr hc⟩, fun p _ => rfl, fun e he => Or.inl he, fun n _ => rfl⟩
      · have hcmp : fcmp (localContent (getDir st.fs (locOf ctx f)) (fileName f))
            (getmtimeD (getDir st.fs (locOf ctx f)) (fileName f)) (bOf ctx f) f.modified_at = false := by
          rcases Bool.eq_false_or_eq_true (fcmp (localContent (getDir st.fs (locOf ctx f)) (fileName f))
            (getmtimeD (getDir st.fs (locOf ctx f)) (fileName f)) (bOf ctx f) f.modified_at) with h' | h'
          · exact absurd ((fcmp_eq_of_mtime_ne _ _ _ _ (ne_of_lt hlt)).mp h') hc
          · exact h'
        rw [heq]
        simp only [tempOf, hcmp, Bool.not_false, if_true]
        refine ⟨_, rfl, ?_, ?_, ?_, ?_⟩
        · show GoodF ctx (setDir st.fs (locOf ctx f) _) f
          unfold GoodF
          rw [getDir_setDir_self]
          exact ⟨isfileB_setFile_self _ _ _ _,
            Or.inr (localContent_setFile_self _ _ _ _)⟩
        · intro p hpne
          show getDir (setDir st.fs (locOf ctx f) _) p = getDir st.fs p
          exact getDir_setDir_ne _ _ _ _ hpne
        · intro e he
          rw [getDir_setDir_self] at he
          rcases mem_setFile _ _ _ _ _ he with h' | h'
          · exact Or.inl (mem_removeFileD _ _ _ h')
          · exact Or.inr h'
        · intro n hn
          rw [getDir_setDir_self]
          rw [findFile_setFile_ne _ _ _ _ _ hn, findFile_removeFileD_ne _ _ _ hn]
    · have hstale : staleCase (getDir st.fs (locOf ctx f)) (fileName f) f.modified_at = false := by
        unfold staleCase
        simp [hlt]
      have h3 : (!(isfileB (getDir st.fs (locOf ctx f)) (fileName f)) && !(f.url == "")) = false := by
        simp [hfile]
      rw [parse_file_b4 ctx st f (locOf ctx f) hloc hcol hstale h3]
      refine ⟨_, rfl, ⟨hfile, Or.inl (Int.not_lt.mp hlt)⟩, fun p _ => rfl,
        fun e he => Or.inl he, fun n _ => rfl⟩
  · have hfile' : isfileB (getDir st.fs (locOf ctx f)) (fileName f) = false :=
      Bool.eq_false_iff.mpr hfile
    have hstale : staleCase (getDir st.fs (locOf ctx f)) (fileName f) f.modified_at = false :=
      staleCase_false_of_nofile _ _ _ hfile'
    have h3 : (!(isfileB (getDir st.fs (locOf ctx f)) (fileName f)) && !(f.url == "")) = true := by
      have : (f.url == "") = false := by simpa using hp.1
      simp [hfile', this]
    rw [parse_file_b3_ok ctx st f (locOf ctx f) (DlRes.wrote (bOf ctx f) f.modified_at)
      hloc hcol hstale h3 hdl (by intro h; cases h)]
    refine ⟨_, rfl, ?_, ?_, ?_, ?_⟩
    · show GoodF ctx (setDir st.fs (locOf ctx f) _) f
      unfold GoodF
      rw [getDir_setDir_self]
      show isfileB (setFile _ _ _ _) (fileName f) = true ∧ _
      refine ⟨isfileB_setFile_self _ _ _ _, Or.inr ?_⟩
      show localContent (setFile _ _ _ _) (fileName f) = bOf ctx f
      exact localContent_setFile_self _ _ _ _
    · intro p hpne
      show getDir (setDir st.fs (locOf ctx f) _) p = getDir st.fs p
      exact getDir_setDir_ne _ _ _ _ hpne
    · intro e he
      rw [getDir_setDir_self] at he
      have he' : e ∈ setFile (getDir st.fs (locOf ctx f)) (fileName f) (bOf ctx f) f.modified_at := he
      exact mem_setFile _ _ _ _ _ he'
    · intro n hn
      rw [getDir_setDir_self]
      have : findFile (setFile (getDir st.fs (locOf ctx f)) (fileName f) (bOf ctx f) f.modified_at) n
          = findFile (getDir st.fs (locOf ctx f)) n := findFile_setFile_ne _ _ _ _ _ hn
      exact this

theorem run2_entry (ctx : Ctx) (st : St) (f : FileRec)
    (hp : Pre ctx f) (hg : GoodF ctx st.fs f) :
    ∃ st1, parse_file ctx st f = Except.ok st1 ∧ st1.fs = st.fs ∧
      st1.skipped = st.skipped + 1 ∧ st1.downloaded = st.downloaded ∧
      st1.updated = st.updated ∧ st1.errors = st.errors := by
  have hloc : lookupFolder ctx.folder_dict f.folder_id = some (locOf ctx f) := pre_loc ctx f hp
  have hnet : ctx.net f.url = some (bOf ctx f) := pre_net ctx f hp
  have hdl : download ctx f = DlRes.wrote (bOf ctx f) f.modified_at :=
    download_regular ctx f (bOf ctx f) hp.1 hp.2.1 hp.2.2.1 hnet
  have hcol : collisionCase (locOf ctx f) (getDir st.fs (locOf ctx f)) (fileName f) = false :=
    collisionCase_of_isfile _ _ _ hg.1
  by_cases hlt : getmtimeD (getDir st.fs (locOf ctx f)) (fileName f) < f.modified_at
  · have hc : localContent (getDir st.fs (locOf ctx f)) (fileName f) = bOf ctx f := by
      rcases hg.2 with h | h
      · exact absurd h (Int.not_le.mpr hlt)
      · exact h
    have hstale : staleCase (getDir st.fs (locOf ctx f)) (fileName f) f.modified_at = true := by
      unfold staleCase
      simp [hg.1, hlt]
    have heq := parse_file_b2_ok ctx st f (locOf ctx f) (DlRes.wrote (bOf ctx f) f.modified_at)
      hloc hcol hstale hdl (by intro h; cases h)
    have hcmp : fcmp (localContent (getDir st.fs (locOf ctx f)) (fileName f))
        (getmtimeD (getDir st.fs (locOf ctx f)) (fileName f)) (bOf ctx f) f.modified_at = true := by
      rw [hc]
      exact fcmp_of_eq _ _ _
    rw [heq]
    simp only [tempOf, hcmp, Bool.not_true, Bool.false_eq_true, if_false]
    exact ⟨_, rfl, rfl, by simp, by simp, by simp, by simp⟩
  · have hstale : staleCase (getDir st.fs (locOf ctx f)) (fileName f) f.modified_at = false := by
      unfold staleCase
      simp [hlt]
    have h3 : (!(isfileB (getDir st.fs (locOf ctx f)) (fileName f)) && !(f.url == "")) = false := by
      simp [hg.1]
    rw [parse_file_b4 ctx st f (locOf ctx f) hloc hcol hstale h3]
    exact ⟨_, rfl, rfl, by simp, by simp, by simp, by simp⟩

theorem run1_fold (ctx : Ctx) : ∀ (L : List FileRec) (st : St),
    (∀ f ∈ L, Pre ctx f) → (∀ f ∈ L, DirOK ctx st.fs f) →
    L.Pairwise (Distinct2 ctx) →
    ∃ st1, runCatalog ctx st L = Except.ok st1 ∧
      (∀ f ∈ L, GoodF ctx st1.fs f) ∧
      (∀ g : FileRec, (∀ f ∈ L, Distinct2 ctx f g) →
        (GoodF ctx st.fs g → GoodF ctx st1.fs g) ∧
        (DirOK ctx st.fs g → DirOK ctx st1.fs g)) := by
  intro L
  induction L with
  | nil =>
    intro st _ _ _
    exact ⟨st, rfl, by simp, fun g _ => ⟨id, id⟩⟩
  | cons f rest ih =>
    intro st hPre hDir hPair
    rw [List.pairwise_cons] at hPair
    rcases run1_entry ctx st f (hPre f (by simp)) (hDir f (by simp)) with
      ⟨st', heq, hgood', hdirs, hentries, hnames⟩
    -- preservation of GoodF and DirOK across the step, for entries distinct from f
    have htransfer : ∀ g : FileRec, Distinct2 ctx f g →
        (GoodF ctx st.fs g → GoodF ctx st'.fs g) ∧
        (DirOK ctx st.fs g → DirOK ctx st'.fs g) := by
      intro g hdist
      by_cases hl : locOf ctx g = locOf ctx f
      · have hnm : pyLower (fileName f) ≠ pyLower (fileName g) := by
          rcases hdist with h | h
          · exact absurd hl.symm h
          · exact h
        have hne : fileName g ≠ fileName f := fun hc => hnm (congrArg pyLower hc.symm)
        constructor
        · refine goodF_of_findFile_eq ctx st.fs st'.fs g ?_
          rw [hl]
          exact hnames (fileName g) hne
        · intro hdg e he hml
          rw [hl] at he
          rcases hentries e he with h' | h'
          · exact hdg e (by rw [hl]; exact h') hml
          · exfalso
            apply hnm
            rw [← h'.1]
            exact hml
      · constructor
        · exact goodF_of_findFile_eq ctx st.fs st'.fs g (by rw [hdirs (locOf ctx g) hl])
        · exact dirOK_of_getDir_eq ctx st.fs st'.fs g (hdirs (locOf ctx g) hl)
    rcases ih st' (fun g hg => hPre g (List.mem_cons_of_mem _ hg))
      (fun g hg => (htransfer g (hPair.1 g hg)).2 (hDir g (List.mem_cons_of_mem _ hg)))
      hPair.2 with ⟨st1, hrun, hgoods, htrans⟩
    refine ⟨st1, ?_, ?_, ?_⟩
    · simp [runCatalog, heq, hrun]
    · intro f' hf'
      rcases List.mem_cons.mp hf' with rfl | hf'
      · exact (htrans f' (fun g hg => distinct2_symm ctx f' g (hPair.1 g hg))).1 hgood'
      · exact hgoods f' hf'
    · intro g hdist
      have hstep := htransfer g (hdist f (by simp))
      have hrest := htrans g (fun f' hf' => hdist f' (List.mem_cons_of_mem _ hf'))
      exact ⟨fun h => hrest.1 (hstep.1 h), fun h => hrest.2 (hstep.2 h)⟩

theorem run2_fold (ctx : Ctx) : ∀ (L : List FileRec) (st : St),
    (∀ f ∈ L, Pre ctx f) → (∀ f ∈ L, GoodF ctx st.fs f) →
    ∃ st1, runCatalog ctx st L = Except.ok st1 ∧ st1.fs = st.fs ∧
      st1.skipped = st.skipped + L.length ∧ st1.downloaded = st.downloaded ∧
      st1.updated = st.updated ∧ st1.errors = st.errors := by
  intro L
  induction L with
  | nil =>
    intro st _ _
    exact ⟨st, rfl, rfl, by simp, rfl, rfl, rfl⟩
  | cons f rest ih =>
    intro st hPre hGood
    rcases run2_entry ctx st f (hPre f (by simp)) (hGood f (by simp)) with
      ⟨st', heq, hfs, hsk, hdl', hup, herr⟩
    rcases ih st' (fun g hg => hPre g (List.mem_cons_of_mem _ hg))
      (fun g hg => by rw [hfs]; exact hGood g (List.mem_cons_of_mem _ hg)) with
      ⟨st1, hrun, hfs1, hsk1, hdl1, hup1, herr1⟩
    refine ⟨st1, by simp [runCatalog, heq, hrun], by rw [hfs1, hfs], ?_, ?_, ?_, ?_⟩
    · rw [hsk1, hsk]
      simp only [List.length_cons]
      omega
    · rw [hdl1, hdl']
    · rw [hup1, hup]
    · rw [herr1, herr]

/-- C4 amended: reconciliation is idempotent for catalogs of plain-url entries
    whose fetches succeed, whose folder ids resolve, whose resolved names are
    pairwise distinct per directory even up to letter case, and whose target
    directories hold no case-colliding stranger entries: the first run returns
    normally, and a second run over the unchanged catalog and context, started
    from the produced tree with fresh counters, downloads nothing, updates
    nothing, errs nowhere, counts every entry skipped and leaves the tree
    unchanged. (Without the no-collision hypothesis the claim is false: see the
    counterexample, where a cross-case collision is re-downloaded every run.) -/
theorem c4_idempotence_amended (ctx : Ctx) (st0 : St) (L : List FileRec)
    (hPre : ∀ f ∈ L, Pre ctx f) (hDir : ∀ f ∈ L, DirOK ctx st0.fs f)
    (hPair : L.Pairwise (Distinct2 ctx)) :
    ∃ st1 st2, runCatalog ctx st0 L = Except.ok st1 ∧
      runCatalog ctx (resetSt st1) L = Except.ok st2 ∧
      st2.downloaded = 0 ∧ st2.updated = 0 ∧ st2.errors = 0 ∧
      st2.skipped = L.length ∧ st2.fs = st1.fs := by
  rcases run1_fold ctx L st0 hPre hDir hPair with ⟨st1, hrun1, hgoods, _⟩
  have hGoodReset : ∀ f ∈ L, GoodF ctx (resetSt st1).fs f := by
    intro f hf
    exact hgoods f hf
  rcases run2_fold ctx L (resetSt st1) hPre hGoodReset with
    ⟨st2, hrun2, hfs, hsk, hdl', hup, herr⟩
  exact ⟨st1, st2, hrun1, hrun2, hdl', hup, herr, by rw [hsk]; simp [resetSt], hfs⟩

/-- C4 counterexample: a catalog holding A.txt and a.txt (same folder, names
    differing only by case) is not idempotent: the second run still downloads
    the colliding entry again — second-run counters are downloaded 1, updated 0,
    skipped 1, errors 0 instead of all-skipped. -/
theorem c4_counterexample :
    ((runCatalog wCtx4 wSt0
        [{ folder_id := 1, url := "u1", display_name := "A.txt", modified_at := 5 },
         { folder_id := 1, url := "u2", display_name := "a.txt", modified_at := 5 }]).toOption.bind
      (fun st1 => (runCatalog wCtx4 (resetSt st1)
        [{ folder_id := 1, url := "u1", display_name := "A.txt", modified_at := 5 },
         { folder_id := 1, url := "u2", display_name := "a.txt", modified_at := 5 }]).toOption)).map
      stCounts = some (1, 0, 1, 0) := by
  decide

/-- C4 amended witness: a two-entry catalog with case-distinct names in folder C,
    run twice from the empty tree: the second run skips both entries. -/
theorem c4_idempotence_amended_witness :
    ∃ st1 st2, runCatalog wCtx4 wSt0
        [{ folder_id := 1, url := "u1", display_name := "A.txt", modified_at := 5 },
         { folder_id := 1, url := "u2", display_name := "b.txt", modified_at := 6 }] = Except.ok st1 ∧
      runCatalog wCtx4 (resetSt st1)
        [{ folder_id := 1, url := "u1", display_name := "A.txt", modified_at := 5 },
         { folder_id := 1, url := "u2", display_name := "b.txt", modified_at := 6 }] = Except.ok st2 ∧
      st2.downloaded = 0 ∧ st2.updated = 0 ∧ st2.errors = 0 ∧
      st2.skipped = ([{ folder_id := 1, url := "u1", display_name := "A.txt", modified_at := 5 },
         { folder_id := 1, url := "u2", display_name := "b.txt", modified_at := 6 }] : List FileRec).length ∧
      st2.fs = st1.fs := by
  refine c4_idempotence_amended wCtx4 wSt0
    [{ folder_id := 1, url := "u1", display_name := "A.txt", modified_at := 5 },
     { folder_id := 1, url := "u2", display_name := "b.txt", modified_at := 6 }] ?_ ?_ ?_
  · intro f hf
    simp only [List.mem_cons, List.not_mem_nil, or_false] at hf
    rcases hf with rfl | rfl
    · exact ⟨by decide, by decide, by decide, by decide, by decide⟩
    · exact ⟨by decide, by decide, by decide, by decide, by decide⟩
  · intro f hf e he
    have he' : e ∈ ([] : List FSEntry) := he
    cases he'
  · refine List.pairwise_cons.mpr ⟨?_, List.pairwise_singleton _ _⟩
    intro g hg
    rw [List.mem_singleton] at hg
    subst hg
    right
    decide

theorem foldl_pres {β : Type} (P : PruneFS → Prop) (g : PruneFS → β → PruneFS)
    (hg : ∀ a b, P a → P (g a b)) :
    ∀ (l : List β) (a : PruneFS), P a → P (l.foldl g a) := by
  intro l
  induction l with
  | nil =>
    intro a h
    exact h
  | cons b l ih =>
    intro a h
    exact ih (g a b) (hg a b h)

theorem mem_files_premoveFile (p : PruneFS) (q x : List String) :
    q ∈ (premoveFile p x).files ↔ q ∈ p.files ∧ ¬ (q = x) := by
  unfold premoveFile
  simp [List.mem_filter]

theorem dirs_premoveFile (p : PruneFS) (x : List String) :
    (premoveFile p x).dirs = p.dirs := rfl

theorem mem_files_premoveTree (p : PruneFS) (q x : List String) :
    q ∈ (premoveTree p x).files ↔ q ∈ p.files ∧ isPre x q = false := by
  unfold premoveTree
  simp only [List.mem_filter, Bool.not_eq_true']

theorem mem_dirs_premoveTree (p : PruneFS) (q x : List String) :
    q ∈ (premoveTree p x).dirs ↔ q ∈ p.dirs ∧ isPre x q = false := by
  unfold premoveTree
  simp only [List.mem_filter, Bool.not_eq_true']

theorem isPre_refl (l : List String) : isPre l l = true := by
  induction l with
  | nil => rfl
  | cons a l ih => simp [isPre, ih]

theorem isPre_append (r a b : List String) (h : isPre r a = true) : isPre r (a ++ b) = true := by
  induction r generalizing a with
  | nil => rfl
  | cons x r ih =>
    cases a with
    | nil => cases h
    | cons y a =>
      simp only [isPre, Bool.and_eq_true, beq_iff_eq] at h
      simp only [List.cons_append, isPre, Bool.and_eq_true, beq_iff_eq]
      exact ⟨h.1, ih a h.2⟩

theorem mem_childNamesOf (ps : List (List String)) (q : List String) (hq : q ∈ ps)
    (hne : q ≠ []) : q.getLast hne ∈ childNamesOf ps q.dropLast := by
  unfold childNamesOf
  rw [List.mem_filterMap]
  refine ⟨q, hq, ?_⟩
  rw [if_pos (by simp)]
  exact List.getLast?_eq_getLast q hne

theorem fileSweep_files_mono (fset : List (List String)) (root : List String)
    (a : PruneFS) (fn : String) (q : List String)
    (h : q ∈ (fileSweep fset root a fn).files) : q ∈ a.files := by
  unfold fileSweep at h
  by_cases hc : fset.contains (root ++ [fn]) = true
  · rw [if_pos hc] at h
    exact h
  · rw [if_neg hc] at h
    exact ((mem_files_premoveFile a q (root ++ [fn])).mp h).1

theorem fileSweep_dirs_eq (fset : List (List String)) (root : List String)
    (a : PruneFS) (fn : String) : (fileSweep fset root a fn).dirs = a.dirs := by
  unfold fileSweep
  by_cases hc : fset.contains (root ++ [fn]) = true
  · rw [if_pos hc]
  · rw [if_neg hc]
    rfl

theorem dirSweep_files_mono (fdirs : List (List String)) (root : List String)
    (a : PruneFS) (dn : String) (q : List String)
    (h : q ∈ (dirSweep fdirs root a dn).files) : q ∈ a.files := by
  unfold dirSweep at h
  by_cases h1 : (dn == oldName) = true
  · rw [if_pos h1] at h
    exact h
  · rw [if_neg h1] at h
    by_cases h2 : fdirs.contains (root ++ [dn]) = true
    · rw [if_pos h2] at h
      exact h
    · rw [if_neg h2] at h
      exact ((mem_files_premoveTree a q (root ++ [dn])).mp h).1

theorem dirSweep_dirs_mono (fdirs : List (List String)) (root : List String)
    (a : PruneFS) (dn : String) (q : List String)
    (h : q ∈ (dirSweep fdirs root a dn).dirs) : q ∈ a.dirs := by
  unfold dirSweep at h
  by_cases h1 : (dn == oldName) = true
  · rw [if_pos h1] at h
    exact h
  · rw [if_neg h1] at h
    by_cases h2 : fdirs.contains (root ++ [dn]) = true
    · rw [if_pos h2] at h
      exact h
    · rw [if_neg h2] at h
      exact ((mem_dirs_premoveTree a q (root ++ [dn])).mp h).1

theorem step_files_mono (fset fdirs : List (List String)) (p : PruneFS)
    (t : List String × List String × List String) (q : List String)
    (h : q ∈ (ontoLocalStep fset fdirs p t).files) : q ∈ p.files := by
  unfold ontoLocalStep at h
  by_cases hg : (t.fst.contains oldName || !(p.dirs.contains t.fst)) = true
  · rw [if_pos hg] at h
    exact h
  · rw [if_neg hg] at h
    have h1 : q ∈ (t.snd.snd.foldl (fileSweep fset t.fst) p).files :=
      foldl_pres (fun a => q ∈ a.files → q ∈ (t.snd.snd.foldl (fileSweep fset t.fst) p).files)
        (dirSweep fdirs t.fst)
        (fun a b hk hq => hk (dirSweep_files_mono fdirs t.fst a b q hq))
        t.snd.fst _ (fun hq => hq) h
    exact foldl_pres (fun a => q ∈ a.files → q ∈ p.files) (fileSweep fset t.fst)
      (fun a b hk hq => hk (fileSweep_files_mono fset t.fst a b q hq))
      t.snd.snd p (fun hq => hq) h1

theorem step_dirs_mono (fset fdirs : List (List String)) (p : PruneFS)
    (t : List String × List String × List String) (q : List String)
    (h : q ∈ (ontoLocalStep fset fdirs p t).dirs) : q ∈ p.dirs := by
  unfold ontoLocalStep at h
  by_cases hg : (t.fst.contains oldName || !(p.dirs.contains t.fst)) = true
  · rw [if_pos hg] at h
    exact h
  · rw [if_neg hg] at h
    have h1 : q ∈ (t.snd.snd.foldl (fileSweep fset t.fst) p).dirs :=
      foldl_pres (fun a => q ∈ a.dirs → q ∈ (t.snd.snd.foldl (fileSweep fset t.fst) p).dirs)
        (dirSweep fdirs t.fst)
        (fun a b hk hq => hk (dirSweep_dirs_mono fdirs t.fst a b q hq))
        t.snd.fst _ (fun hq => hq) h
    have h2 : (t.snd.snd.foldl (fileSweep fset t.fst) p).dirs = p.dirs :=
      foldl_pres (fun a => a.dirs = p.dirs) (fileSweep fset t.fst)
        (fun a b hk => by
          show (fileSweep fset t.fst a b).dirs = p.dirs
          rw [fileSweep_dirs_eq]
          exact hk)
        t.snd.snd p rfl
    rw [h2] at h1
    exact h1

theorem fileFold_dirs_eq (fset : List (List String)) (root : List String)
    (fns : List String) (a : PruneFS) :
    (fns.foldl (fileSweep fset root) a).dirs = a.dirs :=
  foldl_pres (fun x => x.dirs = a.dirs) (fileSweep fset root)
    (fun x b hk => by
      show (fileSweep fset root x b).dirs = a.dirs
      rw [fileSweep_dirs_eq]
      exact hk)
    fns a rfl

theorem isPre_dropLast (x l : List String) (h : isPre x l.dropLast = true) :
    isPre x l = true := by
  rcases eq_or_ne l [] with rfl | hne
  · cases x with
    | nil => rfl
    | cons y ys => cases h
  · rw [← List.dropLast_append_getLast hne]
    exact isPre_append x _ _ h

theorem premoveTree_J (a : PruneFS) (x q : List String)
    (h : q.dropLast ∈ a.dirs ∨ ¬ q ∈ a.files) :
    q.dropLast ∈ (premoveTree a x).dirs ∨ ¬ q ∈ (premoveTree a x).files := by
  by_cases hp : isPre x q.dropLast = true
  · right
    intro hq
    rcases (mem_files_premoveTree a q x).mp hq with ⟨_, hfalse⟩
    rw [isPre_dropLast x q hp] at hfalse
    cases hfalse
  · rcases h with h | h
    · left
      exact (mem_dirs_premoveTree a _ x).mpr ⟨h, Bool.eq_false_iff.mpr hp⟩
    · right
      intro hq
      exact h ((mem_files_premoveTree a q x).mp hq).1

theorem premoveTree_Jd (a : PruneFS) (x q : List String)
    (h : q.dropLast ∈ a.dirs ∨ ¬ q ∈ a.dirs) :
    q.dropLast ∈ (premoveTree a x).dirs ∨ ¬ q ∈ (premoveTree a x).dirs := by
  by_cases hp : isPre x q.dropLast = true
  · right
    intro hq
    rcases (mem_dirs_premoveTree a q x).mp hq with ⟨_, hfalse⟩
    rw [isPre_dropLast x q hp] at hfalse
    cases hfalse
  · rcases h with h | h
    · left
      exact (mem_dirs_premoveTree a _ x).mpr ⟨h, Bool.eq_false_iff.mpr hp⟩
    · right
      intro hq
      exact h ((mem_dirs_premoveTree a q x).mp hq).1

theorem fileSweep_J (fset : List (List String)) (root : List String)
    (a : PruneFS) (fn : String) (q : List String)
    (h : q.dropLast ∈ a.dirs ∨ ¬ q ∈ a.files) :
    q.dropLast ∈ (fileSweep fset root a fn).dirs ∨ ¬ q ∈ (fileSweep fset root a fn).files := by
  rcases h with h | h
  · left
    rw [fileSweep_dirs_eq]
    exact h
  · right
    intro hq
    exact h (fileSweep_files_mono fset root a fn q hq)

theorem dirSweep_J (fdirs : List (List String)) (root : List String)
    (a : PruneFS) (dn : String) (q : List String)
    (h : q.dropLast ∈ a.dirs ∨ ¬ q ∈ a.files) :
    q.dropLast ∈ (dirSweep fdirs root a dn).dirs ∨ ¬ q ∈ (dirSweep fdirs root a dn).files := by
  unfold dirSweep
  by_cases h1 : (dn == oldName) = true
  · rw [if_pos h1]
    exact h
  · rw [if_neg h1]
    by_cases h2 : fdirs.contains (root ++ [dn]) = true
    · rw [if_pos h2]
      exact h
    · rw [if_neg h2]
      exact premoveTree_J a _ q h

theorem dirSweep_Jd (fdirs : List (List String)) (root : List String)
    (a : PruneFS) (dn : String) (q : List String)
    (h : q.dropLast ∈ a.dirs ∨ ¬ q ∈ a.dirs) :
    q.dropLast ∈ (dirSweep fdirs root a dn).dirs ∨ ¬ q ∈ (dirSweep fdirs root a dn).dirs := by
  unfold dirSweep
  by_cases h1 : (dn == oldName) = true
  · rw [if_pos h1]
    exact h
  · rw [if_neg h1]
    by_cases h2 : fdirs.contains (root ++ [dn]) = true
    · rw [if_pos h2]
      exact h
    · rw [if_neg h2]
      exact premoveTree_Jd a _ q h

theorem step_J (fset fdirs : List (List String)) (p : PruneFS)
    (t : List String × List String × List String) (q : List String)
    (h : q.dropLast ∈ p.dirs ∨ ¬ q ∈ p.files) :
    q.dropLast ∈ (ontoLocalStep fset fdirs p t).dirs ∨
      ¬ q ∈ (ontoLocalStep fset fdirs p t).files := by
  unfold ontoLocalStep
  by_cases hg : (t.fst.contains oldName || !(p.dirs.contains t.fst)) = true
  · rw [if_pos hg]
    exact h
  · rw [if_neg hg]
    refine foldl_pres
      (fun a => q.dropLast ∈ a.dirs ∨ ¬ q ∈ a.files) (dirSweep fdirs t.fst)
      (fun a b h' => dirSweep_J fdirs t.fst a b q h') t.snd.fst _ ?_
    exact foldl_pres
      (fun a => q.dropLast ∈ a.dirs ∨ ¬ q ∈ a.files) (fileSweep fset t.fst)
      (fun a b h' => fileSweep_J fset t.fst a b q h') t.snd.snd p h

theorem step_Jd (fset fdirs : List (List String)) (p : PruneFS)
    (t : List String × List String × List String) (q : List String)
    (h : q.dropLast ∈ p.dirs ∨ ¬ q ∈ p.dirs) :
    q.dropLast ∈ (ontoLocalStep fset fdirs p t).dirs ∨
      ¬ q ∈ (ontoLocalStep fset fdirs p t).dirs := by
  unfold ontoLocalStep
  by_cases hg : (t.fst.contains oldName || !(p.dirs.contains t.fst)) = true
  · rw [if_pos hg]
    exact h
  · rw [if_neg hg]
    refine foldl_pres
      (fun a => q.dropLast ∈ a.dirs ∨ ¬ q ∈ a.dirs) (dirSweep fdirs t.fst)
      (fun a b h' => dirSweep_Jd fdirs t.fst a b q h') t.snd.fst _ ?_
    rcases h with h | h
    · left
      rw [fileFold_dirs_eq]
      exact h
    · right
      rw [fileFold_dirs_eq]
      exact h

theorem fileFold_removes (fset : List (List String)) (root : List String) :
    ∀ (fns : List String) (a : PruneFS) (nm : String), nm ∈ fns →
      ¬ ((root ++ [nm]) ∈ fset) →
      ¬ ((root ++ [nm]) ∈ (fns.foldl (fileSweep fset root) a).files) := by
  intro fns
  induction fns with
  | nil =>
    intro a nm h
    cases h
  | cons fn fns ih =>
    intro a nm hmem hnot
    rcases List.mem_cons.mp hmem with rfl | hmem'
    · simp only [List.foldl_cons]
      have h1 : ¬ ((root ++ [nm]) ∈ (fileSweep fset root a nm).files) := by
        unfold fileSweep
        rw [if_neg (by simpa using hnot)]
        intro hq
        exact absurd ((mem_files_premoveFile a _ _).mp hq).2 (by simp)
      exact foldl_pres (fun a => ¬ ((root ++ [nm]) ∈ a.files)) (fileSweep fset root)
        (fun a b hk hq => hk (fileSweep_files_mono fset root a b _ hq)) fns _ h1
    · simp only [List.foldl_cons]
      exact ih _ nm hmem' hnot

theorem dirFold_removes (fdirs : List (List String)) (root : List String) :
    ∀ (dns : List String) (a : PruneFS) (nm : String), nm ∈ dns → nm ≠ oldName →
      ¬ ((root ++ [nm]) ∈ fdirs) →
      ¬ ((root ++ [nm]) ∈ (dns.foldl (dirSweep fdirs root) a).dirs) := by
  intro dns
  induction dns with
  | nil =>
    intro a nm h
    cases h
  | cons dn dns ih =>
    intro a nm hmem hnold hnot
    rcases List.mem_cons.mp hmem with rfl | hmem'
    · simp only [List.foldl_cons]
      have h1 : ¬ ((root ++ [nm]) ∈ (dirSweep fdirs root a nm).dirs) := by
        unfold dirSweep
        rw [if_neg (by simpa using hnold), if_neg (by simpa using hnot)]
        intro hq
        rcases (mem_dirs_premoveTree a _ _).mp hq with ⟨_, hfalse⟩
        rw [isPre_refl] at hfalse
        cases hfalse
      exact foldl_pres (fun a => ¬ ((root ++ [nm]) ∈ a.dirs)) (dirSweep fdirs root)
        (fun a b hk hq => hk (dirSweep_dirs_mono fdirs root a b _ hq)) dns _ h1
    · simp only [List.foldl_cons]
      exact ih _ nm hmem' hnold hnot

theorem ontoLocalStep_active (fset fdirs : List (List String)) (p : PruneFS)
    (t : List String × List String × List String)
    (h1 : t.fst.contains oldName = false)
    (h2 : p.dirs.contains t.fst = true) :
    ontoLocalStep fset fdirs p t
      = t.snd.fst.foldl (dirSweep fdirs t.fst) (t.snd.snd.foldl (fileSweep fset t.fst) p) := by
  unfold ontoLocalStep
  have hguard : (t.fst.contains oldName || !(p.dirs.contains t.fst)) = false := by
    rw [h1, h2]
    rfl
  rw [if_neg (by rw [hguard]; simp)]

theorem prune_stale_file (fset fdirs : List (List String)) (p0 : PruneFS) (q : List String)
    (hq : q ∈ p0.files) (hne : q ≠ []) (hpar : q.dropLast ∈ p0.dirs)
    (hold : ¬ (oldName ∈ q.dropLast)) (hfset : ¬ (q ∈ fset)) :
    ¬ (q ∈ (onto_local fset fdirs p0).files) := by
  unfold onto_local walkTriples
  obtain ⟨l1, l2, hsplit⟩ := List.append_of_mem
    (List.mem_map.mpr ⟨q.dropLast, hpar, rfl⟩)
  rw [hsplit, List.foldl_append, List.foldl_cons]
  have hJ : q.dropLast ∈ (l1.foldl (ontoLocalStep fset fdirs) p0).dirs ∨
      ¬ q ∈ (l1.foldl (ontoLocalStep fset fdirs) p0).files :=
    foldl_pres (fun a => q.dropLast ∈ a.dirs ∨ ¬ q ∈ a.files) (ontoLocalStep fset fdirs)
      (fun a b h => step_J fset fdirs a b q h) l1 p0 (Or.inl hpar)
  have h2 : ¬ q ∈ (ontoLocalStep fset fdirs (l1.foldl (ontoLocalStep fset fdirs) p0)
      (q.dropLast, childNamesOf p0.dirs q.dropLast, childNamesOf p0.files q.dropLast)).files := by
    rcases hJ with hin | hout
    · have hg1 : (q.dropLast).contains oldName = false := by
        rw [Bool.eq_false_iff]
        intro hc
        exact hold (by simpa using hc)
      have hg2 : ((l1.foldl (ontoLocalStep fset fdirs) p0).dirs.contains q.dropLast) = true := by
        simpa using hin
      rw [ontoLocalStep_active fset fdirs _ _ hg1 hg2]
      have hlast : q.getLast hne ∈ childNamesOf p0.files q.dropLast :=
        mem_childNamesOf _ q hq hne
      have hqeq : q.dropLast ++ [q.getLast hne] = q := List.dropLast_append_getLast hne
      have hrem : ¬ q ∈ ((childNamesOf p0.files q.dropLast).foldl
          (fileSweep fset q.dropLast) (l1.foldl (ontoLocalStep fset fdirs) p0)).files := by
        have h' := fileFold_removes fset q.dropLast (childNamesOf p0.files q.dropLast)
          (l1.foldl (ontoLocalStep fset fdirs) p0) (q.getLast hne) hlast
          (by rw [hqeq]; exact hfset)
        rw [hqeq] at h'
        exact h'
      exact foldl_pres (fun a => ¬ q ∈ a.files) (dirSweep fdirs q.dropLast)
        (fun a b hk hq' => hk (dirSweep_files_mono _ _ a b q hq')) _ _ hrem
    · intro hq'
      exact hout (step_files_mono fset fdirs _ _ q hq')
  exact foldl_pres (fun a => ¬ q ∈ a.files) (ontoLocalStep fset fdirs)
    (fun a b hk hq' => hk (step_files_mono fset fdirs a b q hq')) l2 _ h2

theorem prune_stale_dir (fset fdirs : List (List String)) (p0 : PruneFS) (q : List String)
    (hq : q ∈ p0.dirs) (hne : q ≠ []) (hpar : q.dropLast ∈ p0.dirs)
    (hold : ¬ (oldName ∈ q)) (hfdirs : ¬ (q ∈ fdirs)) :
    ¬ (q ∈ (onto_local fset fdirs p0).dirs) := by
  have holdpar : ¬ (oldName ∈ q.dropLast) := fun h => hold (List.dropLast_subset q h)
  have hlastold : q.getLast hne ≠ oldName := fun h => hold (h ▸ List.getLast_mem hne)
  unfold onto_local walkTriples
  obtain ⟨l1, l2, hsplit⟩ := List.append_of_mem
    (List.mem_map.mpr ⟨q.dropLast, hpar, rfl⟩)
  rw [hsplit, List.foldl_append, List.foldl_cons]
  have hJ : q.dropLast ∈ (l1.foldl (ontoLocalStep fset fdirs) p0).dirs ∨
      ¬ q ∈ (l1.foldl (ontoLocalStep fset fdirs) p0).dirs :=
    foldl_pres (fun a => q.dropLast ∈ a.dirs ∨ ¬ q ∈ a.dirs) (ontoLocalStep fset fdirs)
      (fun a b h => step_Jd fset fdirs a b q h) l1 p0 (Or.inl hpar)
  have h2 : ¬ q ∈ (ontoLocalStep fset fdirs (l1.foldl (ontoLocalStep fset fdirs) p0)
      (q.dropLast, childNamesOf p0.dirs q.dropLast, childNamesOf p0.files q.dropLast)).dirs := by
    rcases hJ with hin | hout
    · have hg1 : (q.dropLast).contains oldName = false := by
        rw [Bool.eq_false_iff]
        intro hc
        exact holdpar (by simpa using hc)
      have hg2 : ((l1.foldl (ontoLocalStep fset fdirs) p0).dirs.contains q.dropLast) = true := by
        simpa using hin
      rw [ontoLocalStep_active fset fdirs _ _ hg1 hg2]
      have hlast : q.getLast hne ∈ childNamesOf p0.dirs q.dropLast :=
        mem_childNamesOf _ q hq hne
      have hqeq : q.dropLast ++ [q.getLast hne] = q := List.dropLast_append_getLast hne
      have h' := dirFold_removes fdirs q.dropLast (childNamesOf p0.dirs q.dropLast)
        ((childNamesOf p0.files q.dropLast).foldl (fileSweep fset q.dropLast)
          (l1.foldl (ontoLocalStep fset fdirs) p0))
        (q.getLast hne) hlast hlastold (by rw [hqeq]; exact hfdirs)
      rw [hqeq] at h'
      exact h'
    · intro hq'
      exact hout (step_dirs_mono fset fdirs _ _ q hq')
  exact foldl_pres (fun a => ¬ q ∈ a.dirs) (ontoLocalStep fset fdirs)
    (fun a b hk hq' => hk (step_dirs_mono fset fdirs a b q hq')) l2 _ h2

theorem step_keeps_protected (fset fdirs : List (List String)) (p : PruneFS)
    (t : List String × List String × List String) (q : List String)
    (hqold : oldName ∈ q.dropLast)
    (hanc : ∀ r, r ≠ [] → isPre r q = true → ¬ (oldName ∈ r) → r ∈ fdirs)
    (hq : q ∈ p.files) : q ∈ (ontoLocalStep fset fdirs p t).files := by
  unfold ontoLocalStep
  by_cases hg : (t.fst.contains oldName || !(p.dirs.contains t.fst)) = true
  · rw [if_pos hg]
    exact hq
  · rw [if_neg hg]
    have hg' : (t.fst.contains oldName || !(p.dirs.contains t.fst)) = false :=
      Bool.eq_false_iff.mpr hg
    have hroot : ¬ (oldName ∈ t.fst) := by
      intro h
      have hc : t.fst.contains oldName = true := by simpa using h
      rw [hc, Bool.true_or] at hg'
      cases hg'
    have hmid : q ∈ (t.snd.snd.foldl (fileSweep fset t.fst) p).files := by
      refine foldl_pres (fun a => q ∈ a.files) (fileSweep fset t.fst) ?_ t.snd.snd p hq
      intro a fn hin
      unfold fileSweep
      by_cases hc : fset.contains (t.fst ++ [fn]) = true
      · rw [if_pos hc]
        exact hin
      · rw [if_neg hc]
        refine (mem_files_premoveFile a q _).mpr ⟨hin, ?_⟩
        intro hcontr
        apply hroot
        have : q.dropLast = t.fst := by
          rw [hcontr]
          simp
        rw [← this]
        exact hqold
    refine foldl_pres (fun a => q ∈ a.files) (dirSweep fdirs t.fst) ?_ t.snd.fst _ hmid
    intro a dn hin
    unfold dirSweep
    by_cases h1 : (dn == oldName) = true
    · rw [if_pos h1]
      exact hin
    · rw [if_neg h1]
      by_cases h2 : fdirs.contains (t.fst ++ [dn]) = true
      · rw [if_pos h2]
        exact hin
      · rw [if_neg h2]
        refine (mem_files_premoveTree a q _).mpr ⟨hin, ?_⟩
        rcases Bool.eq_false_or_eq_true (isPre (t.fst ++ [dn]) q) with h' | h'
        · exfalso
          apply h2
          have hrne : t.fst ++ [dn] ≠ [] := by simp
          have hrold : ¬ (oldName ∈ t.fst ++ [dn]) := by
            rw [List.mem_append, List.mem_singleton]
            rintro (h'' | h'')
            · exact hroot h''
            · exact absurd (by simpa using h''.symm) h1
          have := hanc (t.fst ++ [dn]) hrne h' hrold
          simpa using this
        · exact h'

theorem prune_keeps_protected (fset fdirs : List (List String)) (p0 : PruneFS) (q : List String)
    (hq : q ∈ p0.files) (hqold : oldName ∈ q.dropLast)
    (hanc : ∀ r, r ≠ [] → isPre r q = true → ¬ (oldName ∈ r) → r ∈ fdirs) :
    q ∈ (onto_local fset fdirs p0).files :=
  foldl_pres (fun a => q ∈ a.files) (ontoLocalStep fset fdirs)
    (fun a b h => step_keeps_protected fset fdirs a b q hqold hanc h)
    (walkTriples p0) p0 hq

theorem step_vanished_root (fset fdirs : List (List String)) (p : PruneFS)
    (t : List String × List String × List String)
    (h : ¬ (t.fst ∈ p.dirs)) : ontoLocalStep fset fdirs p t = p := by
  unfold ontoLocalStep
  rw [if_pos (by simp [h])]

/-- C3 counterexample: the reserved .old subdirectory is NOT always spared: a
    file inside x/.old, even one listed in ExpectedPathSet, is deleted because
    the stale directory x above it is removed recursively with everything it
    contains. -/
theorem c3_counterexample :
    (["x", ".old", "f"] ∈
      ({ files := [["x", ".old", "f"]], dirs := [[], ["x"], ["x", ".old"]] } : PruneFS).files) ∧
    (onto_local [["x", ".old", "f"]] []
      { files := [["x", ".old", "f"]], dirs := [[], ["x"], ["x", ".old"]] }).files = [] := by
  refine ⟨by decide, by decide⟩

/-- C3 amended: the pruning pass deletes every file whose path is not in
    ExpectedPathSet and every subdirectory whose path is not among FolderMap's
    values, provided no .old component shields them; entries below a .old
    component are spared by the walk itself (never deleted directly), but they
    survive only when every ancestor strictly above the .old component is kept
    (is among FolderMap's values) — an ancestor removed recursively takes the
    .old zone with it; and a walk triple whose root no longer exists when its
    turn comes is silently skipped, leaving the state unchanged. -/
theorem c3_prune_amended :
    (∀ (fset fdirs : List (List String)) (p0 : PruneFS) (q : List String),
      q ∈ p0.files → q ≠ [] → q.dropLast ∈ p0.dirs → ¬ (oldName ∈ q.dropLast) →
      ¬ (q ∈ fset) → ¬ (q ∈ (onto_local fset fdirs p0).files)) ∧
    (∀ (fset fdirs : List (List String)) (p0 : PruneFS) (q : List String),
      q ∈ p0.dirs → q ≠ [] → q.dropLast ∈ p0.dirs → ¬ (oldName ∈ q) →
      ¬ (q ∈ fdirs) → ¬ (q ∈ (onto_local fset fdirs p0).dirs)) ∧
    (∀ (fset fdirs : List (List String)) (p0 : PruneFS) (q : List String),
      q ∈ p0.files → oldName ∈ q.dropLast →
      (∀ r, r ≠ [] → isPre r q = true → ¬ (oldName ∈ r) → r ∈ fdirs) →
      q ∈ (onto_local fset fdirs p0).files) ∧
    (∀ (fset fdirs : List (List String)) (p0 : PruneFS)
        (t : List String × List String × List String),
      ¬ (t.fst ∈ p0.dirs) → ontoLocalStep fset fdirs p0 t = p0) :=
  ⟨prune_stale_file, prune_stale_dir, prune_keeps_protected, step_vanished_root⟩

/-- C3 amended witness: a stale root file is deleted; a stale directory is
    deleted; a file inside a top-level .old zone survives; a triple whose root
    vanished is a no-op. -/
theorem c3_prune_amended_witness :
    (¬ (["stale"] ∈ (onto_local [] [] { files := [["stale"]], dirs := [[]] }).files)) ∧
    (¬ (["d"] ∈ (onto_local [] [] { files := [], dirs := [[], ["d"]] }).dirs)) ∧
    ([".old", "f"] ∈ (onto_local [] []
      { files := [[".old", "f"]], dirs := [[], [".old"]] }).files) ∧
    (ontoLocalStep [] [] { files := [["keep"]], dirs := [[]] } (["gone"], [], [])
      = { files := [["keep"]], dirs := [[]] }) := by
  refine ⟨?_, ?_, ?_, ?_⟩
  · exact c3_prune_amended.1 [] [] { files := [["stale"]], dirs := [[]] } ["stale"]
      (by decide) (by decide) (by decide) (by decide) (by decide)
  · exact c3_prune_amended.2.1 [] [] { files := [], dirs := [[], ["d"]] } ["d"]
      (by decide) (by decide) (by decide) (by decide) (by decide)
  · refine c3_prune_amended.2.2.1 [] [] { files := [[".old", "f"]], dirs := [[], [".old"]] }
      [".old", "f"] (by decide) (by decide) ?_
    intro r hne hpre hold'
    exfalso
    apply hold'
    cases r with
    | nil => exact absurd rfl hne
    | cons a as =>
      have ha : a = ".old" := by
        have h' : (a == ".old") = true ∧ isPre as ["f"] = true := by
          simpa [isPre, Bool.and_eq_true] using hpre
        simpa using h'.1
      rw [ha]
      exact List.mem_cons_self _ _
  · exact c3_prune_amended.2.2.2 [] [] { files := [["keep"]], dirs := [[]] }
      (["gone"], [], []) (by decide)

end CanvasSync
